import Mathlib

/-!
Verification development for the NameComparator repository
(NameComparator/NameComparator.py).

Strings are modelled as `List Char` (`Str`).  Each Python string/regex
operation used by the source is embedded as a dedicated executable
function whose semantics matches the Python operation on the inputs the
program feeds it; every such function carries a comment naming the Python
operation it embeds.  Exceptions (IndexError, ZeroDivisionError,
AttributeError, ValueError) are modelled by `Option`: a function that can
raise returns `none` exactly where Python would raise.

External libraries are modelled as follows:
* `unidecode` (ASCII folding): identity on ASCII characters; non-ASCII
  characters are mapped to a placeholder.  All concrete inputs evaluated
  in this file are ASCII, where the model agrees with the library.
* `fuzz.ratio` (fuzzywuzzy backed by python-Levenshtein): the
  indel-based Levenshtein ratio `round(100*(lensum-d)/lensum)` with
  Python's round-half-even, where `d` counts insertions/deletions
  (substitution cost 2), i.e. `d = lensum - 2*lcs`.
* `fuzz.partial_ratio`: per the repository spec's glossary, the best
  `ratio` of the shorter string against the substrings of the longer
  string of the shorter's length (fuzzywuzzy samples only block-aligned
  offsets; no claim in this development depends on the difference).
-/

namespace NameCmp

abbrev Str := List Char

/-- Coerce a Lean string literal to the `List Char` model. -/
def str (s : String) : Str := s.data

/-- Python `\s` / `str.split` / `str.strip` whitespace (ASCII part;
the inputs this program produces contain only these). -/
def isPyWs (c : Char) : Bool :=
  c = ' ' || c.toNat = 9 || c.toNat = 10 || c.toNat = 13 || c.toNat = 11 || c.toNat = 12

/-- Python regex `\w` word characters (ASCII part). -/
def isWordChar (c : Char) : Bool :=
  ('a' ≤ c && c ≤ 'z') || ('A' ≤ c && c ≤ 'Z') || ('0' ≤ c && c ≤ '9') || c = '_'

/-- Helper for `splitWords`; structural recursion on a fuel that is at
least the length of the remaining string (each step consumes at least
one character, so the fuel never runs out). -/
def splitWordsF : Nat → Str → List Str
  | 0, _ => []
  | _, [] => []
  | fuel + 1, c :: cs =>
    if isPyWs c then splitWordsF fuel cs
    else (c :: cs.takeWhile (fun d => !(isPyWs d))) ::
      splitWordsF fuel (cs.dropWhile (fun d => !(isPyWs d)))

/-- Python `str.split()` (split on whitespace runs, drop empties). -/
def splitWords (s : Str) : List Str := splitWordsF s.length s

/-- Python `' '.join(ws)` (empties included, as in the source). -/
def joinWords (ws : List Str) : Str := List.intercalate [' '] ws

/-- Python `pat in s` (substring containment). -/
def containsSub (s pat : Str) : Bool :=
  if pat.isPrefixOf s then true
  else match s with
    | [] => false
    | _ :: cs => containsSub cs pat

/-- Helper for `replaceAll`: fuel-structural scan, `pat` nonempty. -/
def replaceAllGo (pat repl : Str) : Nat → Str → Str
  | 0, s => s
  | _, [] => []
  | fuel + 1, c :: cs =>
    if pat.isPrefixOf (c :: cs) then
      repl ++ replaceAllGo pat repl fuel (cs.drop (pat.length - 1))
    else c :: replaceAllGo pat repl fuel cs

/-- Python `s.replace(pat, repl)` (all non-overlapping occurrences,
left to right; also the model of `re.sub` for metacharacter-free
patterns). -/
def replaceAll (s pat repl : Str) : Str :=
  if pat = [] then s else replaceAllGo pat repl s.length s

/-- Helper for `replaceFirst`. -/
def replaceFirstGo (pat repl : Str) : Str → Str
  | [] => []
  | c :: cs =>
    if pat.isPrefixOf (c :: cs) ∧ pat ≠ [] then
      repl ++ cs.drop (pat.length - 1)
    else c :: replaceFirstGo pat repl cs

/-- Python `s.replace(pat, repl, 1)` (first occurrence only). -/
def replaceFirst (s pat repl : Str) : Str :=
  if pat = [] then s else replaceFirstGo pat repl s

/-- Python `s.lower()` (ASCII case fold; inputs are ASCII). -/
def toLowerStr (s : Str) : Str := s.map Char.toLower

/-- Python `s.strip()` restricted to trailing side (`s.rstrip()`). -/
def pyRstrip (s : Str) : Str := (s.reverse.dropWhile isPyWs).reverse

/-- Python `s.strip()`. -/
def pyStrip (s : Str) : Str := pyRstrip (s.dropWhile isPyWs)

/-- `re.sub(r'[^\S ]', ' ', name)`: each non-space whitespace char
becomes a space. -/
def subNonSpaceWs (s : Str) : Str :=
  s.map (fun c => if isPyWs c ∧ c ≠ ' ' then ' ' else c)

/-- Helper for `collapseSpaces` (fuel-structural). -/
def collapseSpacesF : Nat → Str → Str
  | 0, s => s
  | _, [] => []
  | fuel + 1, c :: cs =>
    if c = ' ' then ' ' :: collapseSpacesF fuel (cs.dropWhile (fun d => d = ' '))
    else c :: collapseSpacesF fuel cs

/-- `re.sub(r" +", " ", name)`: collapse space runs to one space. -/
def collapseSpaces (s : Str) : Str := collapseSpacesF s.length s

/-- Helper for `collapseWs` (fuel-structural). -/
def collapseWsF : Nat → Str → Str
  | 0, s => s
  | _, [] => []
  | fuel + 1, c :: cs =>
    if isPyWs c then ' ' :: collapseWsF fuel (cs.dropWhile (fun d => isPyWs d))
    else c :: collapseWsF fuel cs

/-- `re.sub(r"\s+", " ", name)`: collapse whitespace runs to one space. -/
def collapseWs (s : Str) : Str := collapseWsF s.length s

/-- Model of the external `unidecode`: identity on ASCII, placeholder
for non-ASCII (the real library transliterates; all inputs evaluated
here are ASCII, where the two agree). -/
def unidecodeM (s : Str) : Str :=
  s.bind (fun c => if c.toNat < 128 then [c] else ['?'])

/-- `re.sub(r"[.,?;\"*()]", "", name)`: drop the punctuation set. -/
def removePunct (s : Str) : Str :=
  s.filter (fun c => ¬ c ∈ ['.', ',', '?', ';', '"', '*', '(', ')'])

/-- Helper for `collapseAposSpace` (fuel-structural). -/
def collapseAposSpaceF : Nat → Str → Str
  | 0, s => s
  | _, [] => []
  | fuel + 1, c :: cs =>
    if c = '\'' ∧ cs.headD ' ' = ' ' ∧ cs ≠ [] then
      '\'' :: collapseAposSpaceF fuel (cs.dropWhile (fun d => d = ' '))
    else c :: collapseAposSpaceF fuel cs

/-- `re.sub("' +", "'", name)`: drop spaces right after an apostrophe. -/
def collapseAposSpace (s : Str) : Str := collapseAposSpaceF s.length s

/-- Is there a regex word boundary between the two characters
(`none` = string edge)? -/
def boundary (a b : Option Char) : Bool :=
  (match a with | none => false | some c => isWordChar c) ≠
  (match b with | none => false | some c => isWordChar c)

/-- Helper for `wordSub`: `prev` is the char left of the scan point
(fuel-structural). -/
def wordSubGo (w repl : Str) : Nat → Option Char → Str → Str
  | 0, _, s => s
  | _, _, [] => []
  | fuel + 1, prev, c :: cs =>
    if w.isPrefixOf (c :: cs) ∧ w ≠ [] ∧ boundary prev (some c) ∧
        boundary w.getLast? ((c :: cs).drop w.length).head? then
      repl ++ wordSubGo w repl fuel w.getLast? (cs.drop (w.length - 1))
    else c :: wordSubGo w repl fuel (some c) cs

/-- `re.sub(rf"\b{w}\b", repl, s)` for a metacharacter-free word `w`. -/
def wordSub (w repl s : Str) : Str := wordSubGo w repl s.length none s

/-- Helper for `bSub` (fuel-structural). -/
def bSubGo (w repl : Str) : Nat → Option Char → Str → Str
  | 0, _, s => s
  | _, _, [] => []
  | fuel + 1, prev, c :: cs =>
    if w.isPrefixOf (c :: cs) ∧ w ≠ [] ∧ boundary prev (some c) then
      repl ++ bSubGo w repl fuel w.getLast? (cs.drop (w.length - 1))
    else c :: bSubGo w repl fuel (some c) cs

/-- `re.sub(rf"\b{w}", repl, s)`: leading word boundary only
(used for the Dutch-prefix fusions). -/
def bSub (w repl s : Str) : Str := bSubGo w repl s.length none s

/-- Helper for `altWordSub`: try the alternatives in regex order. -/
def altWordFind (pats : List Str) (prev : Option Char) (s : Str) : Option Str :=
  pats.find? (fun w =>
    w ≠ [] ∧ w.isPrefixOf s ∧ boundary prev s.head? ∧
    boundary w.getLast? (s.drop w.length).head?)

/-- `re.sub(r'\b(p1|p2|...)\b', repl, s)`: alternation of literal
words, first alternative preferred (Python regex alternation order);
fuel-structural. -/
def altWordSubGo (pats : List Str) (repl : Str) : Nat → Option Char → Str → Str
  | 0, _, s => s
  | _, _, [] => []
  | fuel + 1, prev, c :: cs =>
    match altWordFind pats prev (c :: cs) with
    | some w => repl ++ altWordSubGo pats repl fuel w.getLast? (cs.drop (w.length - 1))
    | none => c :: altWordSubGo pats repl fuel (some c) cs

/-- `re.sub(r'\b(ii|iii|iv)\b', '', word)` applied per word. -/
def altWordSub (pats : List Str) (repl s : Str) : Str :=
  altWordSubGo pats repl s.length none s

/-- Lookahead for `sub1to9`: letter a-z then the literal `2,6`. -/
def sub1to9Look : Str → Bool
  | d :: e :: f :: g :: _ => ('a' ≤ d && d ≤ 'z') && e = '2' && f = ',' && g = '6'
  | _ => false

/-- `re.sub(r"[1-9][a-z]2,6", "", name)`: the source pattern is missing
its braces, so `2,6` is literal: digit 1-9, letter a-z, then the three
characters `2,6`; fuel-structural. -/
def sub1to9F : Nat → Str → Str
  | 0, s => s
  | _, [] => []
  | fuel + 1, c :: cs =>
    if ('1' ≤ c ∧ c ≤ '9') ∧ sub1to9Look cs then
      sub1to9F fuel (cs.drop 4)
    else c :: sub1to9F fuel cs

def sub1to9 (s : Str) : Str := sub1to9F s.length s

/-- `_cleanNameByItself` (lines 140-218): the per-name cleaning chain,
step for step in source order.  Non-string inputs cannot arise in the
typed model; the blank-name checks are kept. -/
def cleanNameByItself (name : Str) : Str :=
  -- Deal with blank names
  if name = [] then ['_'] else
  -- Deal with whitespace
  let name := subNonSpaceWs name
  let name := collapseSpaces name
  let name := pyStrip name
  -- Standardize name into ascii
  let name := unidecodeM name
  let name := toLowerStr name
  -- Deal with blank names again
  if name = [] then ['_'] else
  -- Remove punctuation
  let name := removePunct name
  -- Remove spaces after apostrophe
  let name := collapseAposSpace name
  -- Remove jr and sr (each `.replace(r"\b...\b", "")` is the source's
  -- literal-string replace, which only fires on a literal backslash-b)
  let name := replaceAll (wordSub (str "jr") [] name) (str "\\bjunior\\b") []
  let name := replaceAll (wordSub (str "sr") [] name) (str "\\bsenior\\b") []
  -- Remove titles
  let name := replaceAll (wordSub (str "prof") [] name) (str "\\bprofessor\\b") []
  let name := replaceAll (wordSub (str "mr") [] name) (str "\\bmister\\b") []
  let name := replaceAll (wordSub (str "mrs") [] name) (str "\\bmissus\\b") []
  let name := replaceAll (wordSub (str "ms") [] name) (str "\\bmiss\\b") []
  let name := replaceAll (wordSub (str "dr") [] name) (str "\\bdoctor\\b") []
  let name := wordSub (str "student") [] name
  let name := wordSub (str "rev") [] name
  let name := replaceAll name (str "reverend") []
  -- Remove family relations
  let name := wordSub (str "sister") [] name
  let name := wordSub (str "brother") [] name
  let name := wordSub (str "mother") [] name
  let name := wordSub (str "father") [] name
  let name := replaceAll name (str " in law") (str " ")
  -- Removes "head of household"
  let name := replaceAll name (str "head of household") []
  -- Remove more than one space again
  let name := collapseSpaces name
  -- Remove stuff like 'the 3rd'
  let name := replaceAll (sub1to9 name) (str " the ") []
  -- Remove Roman numerals
  let name := joinWords ((splitWords name).map
    (fun w => altWordSub [str "ii", str "iii", str "iv"] [] w))
  let name := collapseSpaces name
  let name := pyStrip name
  -- Remove 'no suffix'
  let name := replaceAll name (str "no suffix") []
  -- Deal with Dutch names
  let name := bSub (str "van de") (str "vande") name
  let name := bSub (str "van den") (str "vanden") name
  let name := bSub (str "van der") (str "vander") name
  -- Deal with whitespace one last time, then return
  let name := collapseSpaces name
  pyStrip name

/-! ## The fuzz similarity primitives -/

/-- Python `round` on an exact rational `num/den` (half to even). -/
def roundHalfEven (num den : Nat) : Nat :=
  let q := num / den
  let r := num % den
  if 2 * r < den then q
  else if 2 * r > den then q + 1
  else if q % 2 = 0 then q else q + 1

/-- One DP row update for the longest-common-subsequence length. -/
def lcsRowGo (ca : Char) : List Nat → Str → Nat → List Nat
  | r0 :: rest, cb :: bs, left =>
    let v := if ca = cb then r0 + 1 else max (rest.headD 0) left
    v :: lcsRowGo ca rest bs v
  | _, _, _ => []

/-- Longest-common-subsequence length (classic DP). -/
def lcsLen (a b : Str) : Nat :=
  let init := List.replicate (b.length + 1) 0
  (a.foldl (fun row ca => 0 :: lcsRowGo ca row b 0) init).getLastD 0

/-- `fuzz.ratio` (python-Levenshtein backend): indel distance
`d = lensum - 2*lcs`, score `round(100*(lensum-d)/lensum)`. -/
def fuzzRatio (a b : Str) : Int :=
  let lensum := a.length + b.length
  if lensum = 0 then 100 else (roundHalfEven (200 * lcsLen a b) lensum : Int)

/-- `longer[i:i+n]`. -/
def substrAt (l : Str) (i n : Nat) : Str := (l.drop i).take n

/-- `fuzz.partial_ratio`, modelled from the spec glossary: best
`fuzzRatio` of the shorter string against same-length substrings of the
longer. -/
def fuzzPRatio (a b : Str) : Int :=
  let p := if a.length ≤ b.length then (a, b) else (b, a)
  let s := p.1
  let l := p.2
  if s = [] then 100
  else ((List.range (l.length - s.length + 1)).map
    (fun i => fuzzRatio s (substrAt l i s.length))).foldl max 0

/-! ## The word-pair aligner (`_findWhichWordsMatchAndHowWell`) -/

/-- The per-pair score of the aligner (lines 751-764), in source order:
`max(ratio, partialRatio)`, overridden by `ratio` when the first
characters differ, overridden by 100/0 when either word is an initial. -/
def pairScore (w0 w1 : Str) : Int :=
  let rScore := fuzzRatio w0 w1
  let prScore := fuzzPRatio w0 w1
  let score := max rScore prScore
  let score := if w0.headD ' ' ≠ w1.headD ' ' then rScore else score
  if w0.length = 1 ∨ w1.length = 1 then
    (if w0.headD ' ' = w1.headD ' ' then 100 else 0)
  else score

/-- The `scores` list (lines 748-767): all `(i, j, score)` triples in
i-major order.  The source tags indices with the strings `"i words1"`
and `"j words2"` and strips the tags again at line 783; the tagging is
injective, so the indices are carried directly as naturals. -/
def scoresFor (ws0 ws1 : List Str) : List (Nat × Nat × Int) :=
  ws0.enum.bind (fun p => ws1.enum.map (fun q => (p.1, q.1, pairScore p.2 q.2)))

/-- `itertools.combinations` (lexicographic order of positions). -/
def combinationsL {α : Type} : Nat → List α → List (List α)
  | 0, _ => [[]]
  | _ + 1, [] => []
  | n + 1, x :: xs => (combinationsL n xs).map (fun c => x :: c) ++ combinationsL (n + 1) xs

/-- The validity filter (line 776): all first indices distinct and all
second indices distinct (`len(set(..)) == len(c)` on the tag strings). -/
def validCombo (c : List (Nat × Nat × Int)) : Bool :=
  (c.map (fun t => t.1)).Nodup ∧ (c.map (fun t => t.2.1)).Nodup

/-- `sum(y[2] for y in combo)`. -/
def sumScore (c : List (Nat × Nat × Int)) : Int :=
  c.foldl (fun a t => a + t.2.2) 0

/-- The tie-break quantity (lines 797-801): total character count of the
matched words. -/
def letterCount (ws0 ws1 : List Str) (c : List (Nat × Nat × Int)) : Nat :=
  c.foldl (fun a t => a + (ws0.getD t.1 []).length + (ws1.getD t.2.1 []).length) 0

/-- The selection tail of `_findWhichWordsMatchAndHowWell` (lines
786-807): the maximum summed score over the valid combinations (Python's
first-maximum `max`), the combinations attaining it, and the first one
among them with strictly maximal letter count.  The `[]` branch is
unreachable (Python's `max` would raise there); `validCombos_ne_nil`
proves it never fires. -/
def alignPick (ws0 ws1 : List Str) (valids : List (List (Nat × Nat × Int))) :
    List (Nat × Nat × Int) :=
  match valids with
  | [] => []
  | v :: vs =>
    let maxSum := vs.foldl (fun m c => max m (sumScore c)) (sumScore v)
    let maxCombos := (v :: vs).filter (fun c => sumScore c = maxSum)
    (maxCombos.foldl
      (fun acc c =>
        if letterCount ws0 ws1 c > acc.2 then (c, letterCount ws0 ws1 c)
        else acc)
      ([], 0)).1

/-- `_findWhichWordsMatchAndHowWell` (lines 729-807). -/
def findWhichWordsMatchAndHowWell (name0 name1 : Str) : List (Nat × Nat × Int) :=
  let words0 := splitWords name0
  let words1 := splitWords name1
  let scores := scoresFor words0 words1
  let minLength := min words0.length words1.length
  alignPick words0 words1 ((combinationsL minLength scores).filter validCombo)

/-! ## Structural lemmas for the aligner -/

/-- The i-major rows of the score matrix. -/
def scoreRows (ws0 ws1 : List Str) : List (List (Nat × Nat × Int)) :=
  ws0.enum.map (fun p => ws1.enum.map (fun q => (p.1, q.1, pairScore p.2 q.2)))

/-- The diagonal assignment, used to witness nonemptiness of the valid
combination list. -/
def diagCombo (ws0 ws1 : List Str) (k : Nat) : List (Nat × Nat × Int) :=
  (List.range k).map (fun t => (t, t, pairScore (ws0.getD t []) (ws1.getD t [])))

/-! ## Gates and the spelling matcher -/

/-- A rewrite rule `[meatA, meatB, bottomBreads, topBreads, minLen]`
after the loader's placeholder expansion (the bread entries are plain
strings). -/
structure Rule where
  meatA : Str
  meatB : Str
  bottoms : List Str
  tops : List Str
  minLen : Nat

/-- The five reference datasets loaded in `__init__` (their JSON files
are data, not code; every function takes them as a parameter). -/
structure RefData where
  namesToIpa : List (Str × Str)
  syllableToIpa : List (Str × Str)
  topSurnames : List Str
  ipaRules : List Rule
  spellingRules : List Rule
  nicknameSets : List (List Str)

/-- Python `dict.get` on an association list. -/
def dictGet (d : List (Str × Str)) (k : Str) : Option Str :=
  (d.find? (fun p => p.1 = k)).map (fun p => p.2)

/-- `_eitherNameTooShort` (lines 712-727). -/
def eitherNameTooShort (name0 name1 : Str) : Bool :=
  let combo := findWhichWordsMatchAndHowWell name0 name1
  let shortestWordCount := combo.length
  if shortestWordCount < 2 then true else false

/-- `_hasRareSurname` (lines 845-862).  `name.split()[-1]` raises
IndexError on a name with no tokens: modelled as `none`. -/
def hasRareSurname (rd : RefData) (name : Str) : Option Bool :=
  let name := toLowerStr name
  match (splitWords name).getLast? with
  | none => none
  | some surname => some (if ¬ surname ∈ rd.topSurnames then true else false)

/-- The tail of `_eitherNameTooGeneric` after the rare-surname check
(lines 827-843): count the aligned pairs in which either word is an
initial, then compare with the alignment size. -/
def tooGenericTail (name0 name1 : Str) : Bool :=
  let combo := findWhichWordsMatchAndHowWell name0 name1
  let shortestWordCount := combo.length
  let words0 := splitWords name0
  let words2 := splitWords name1
  let nonInitialMatchCount := (combo.filter (fun m =>
    (words0.getD m.1 []).length = 1 ∨ (words2.getD m.2.1 []).length = 1)).length
  if shortestWordCount ≤ nonInitialMatchCount + 1 then true else false

/-- `_eitherNameTooGeneric` (lines 809-843).  Python's `and` evaluates
the second `_hasRareSurname` only when the first returned True, so a
crash in the second call only surfaces in that branch. -/
def eitherNameTooGeneric (rd : RefData) (name0 name1 : Str) : Option Bool :=
  match hasRareSurname rd name0 with
  | none => none
  | some false => some (tooGenericTail name0 name1)
  | some true =>
    match hasRareSurname rd name1 with
    | none => none
    | some true => some false
    | some false => some (tooGenericTail name0 name1)

/-- `reduceToSimpleConsonants` (lines 947-959): vowels to `*`, one
left-to-right `**`→`*` pass, then collapse repeated runs. -/
def subVowels (s : Str) : Str :=
  s.map (fun c => if c ∈ ['a', 'e', 'i', 'o', 'u', 'y'] then '*' else c)

/-- `re.sub(r'(.)\1+', r'\1', s)`: collapse every run of a repeated
character to a single copy. -/
def dedupRunsGo : Char → Str → Str
  | _, [] => []
  | prev, c :: cs => if c = prev then dedupRunsGo prev cs else c :: dedupRunsGo c cs

def dedupRuns : Str → Str
  | [] => []
  | c :: cs => c :: dedupRunsGo c cs

def reduceToSimpleConsonants (s : Str) : Str :=
  dedupRuns (replaceAll (subVowels s) (str "**") (str "*"))

/-- The per-pair acceptance test inside `_consonantComparison`
(lines 962-984); the source's `continue` chains become nested guards. -/
def consonantPairOk (name0 name1 : Str) (tup : Nat × Nat × Int) : Bool :=
  let word0 := (splitWords name0).getD tup.1 []
  let word1 := (splitWords name1).getD tup.2.1 []
  let originalScoreForWords := tup.2.2
  let consonantsName0 := reduceToSimpleConsonants word0
  let consonantsName1 := reduceToSimpleConsonants word1
  let consonantsRatio := fuzzRatio consonantsName0 consonantsName1
  if originalScoreForWords ≤ 30 then false
  else if (word0.length ≠ 1 ∧ word1.length ≠ 1) ∧
      min (consonantsName0.count '*') (consonantsName1.count '*') < 2 then false
  else if (consonantsRatio ≤ 80 ∨ originalScoreForWords ≤ 60) ∧ consonantsRatio ≠ 100
    then false
  else true

/-- The number of aligned pairs passing the consonant test. -/
def consonantMatchCount (name0 name1 : Str) : Nat :=
  ((findWhichWordsMatchAndHowWell name0 name1).filter
    (consonantPairOk name0 name1)).length

/-- `_consonantComparison` (lines 933-990). -/
def consonantComparison (name0 name1 : Str) : Bool :=
  let wordCombo := findWhichWordsMatchAndHowWell name0 name1
  let minRequiredMatches := wordCombo.length
  let numWordConsonantMatches := (wordCombo.filter (consonantPairOk name0 name1)).length
  if numWordConsonantMatches > minRequiredMatches ∨ numWordConsonantMatches ≥ 3
  then true else false

/-- `_spellingComparison` (lines 904-931). -/
def spellingComparison (name0 name1 : Str) : Bool × List (Nat × Nat × Int) :=
  let wordCombo := findWhichWordsMatchAndHowWell name0 name1
  let count := (wordCombo.filter (fun tup => tup.2.2 > 80)).length
  let minLength := min (splitWords name0).length (splitWords name1).length
  if count ≥ 3 ∨ count = minLength then (true, wordCombo)
  else if consonantComparison name0 name1 then (true, wordCombo)
  else (false, wordCombo)

/-- `_isWorthContinuing` (lines 992-1015).  The source indexes the name
strings themselves (`name0[int(match[0])]`), so `word0` and `word1` are
single characters and the length-1 tests below are always true; the
model reproduces this (`[name.getD i ' ']` is the one-character string
`name[i]`; the index is always in range on the program's inputs). -/
def isWorthContinuing (name0 name1 : Str) : Bool :=
  let wordCombo := findWhichWordsMatchAndHowWell name0 name1
  let oneLetterMatchFailCount := (wordCombo.filter (fun m =>
    let word0 : Str := [name0.getD m.1 ' ']
    let word1 : Str := [name1.getD m.2.1 ' ']
    m.2.2 = 0 ∧ (word0.length = 1 ∨ word1.length = 1))).length
  if oneLetterMatchFailCount ≥ 1 ∧ wordCombo.length ≤ 3 then false else true

/-- The worth-continuing gate as the spec words it (claim C7): only
zero-score pairs in which at least one aligned token is an initial are
counted. -/
def claimWorthGate (name0 name1 : Str) : Bool :=
  let wordCombo := findWhichWordsMatchAndHowWell name0 name1
  let f := (wordCombo.filter (fun m =>
    m.2.2 = 0 ∧ (((splitWords name0).getD m.1 []).length = 1 ∨
      ((splitWords name1).getD m.2.1 []).length = 1))).length
  if f ≥ 1 ∧ wordCombo.length ≤ 3 then false else true

/-! ## The name editor and the attempt-2 modifiers -/

/-- `NameEditor` (lines 370-407): the split word lists of both names,
with per-index updates.  Python raises IndexError for an out-of-range
`words[index] = w`; all updates in the program use indices produced by
the aligner, which are in range, and `List.set` is the identity out of
range. -/
structure NameEditor where
  words0 : List Str
  words1 : List Str

def NameEditor.make (name0 name1 : Str) : NameEditor :=
  ⟨splitWords name0, splitWords name1⟩

def NameEditor.updateName0 (ne : NameEditor) (index : Nat) (updatedWord : Str) : NameEditor :=
  ⟨ne.words0.set index updatedWord, ne.words1⟩

def NameEditor.updateName1 (ne : NameEditor) (index : Nat) (updatedWord : Str) : NameEditor :=
  ⟨ne.words0, ne.words1.set index updatedWord⟩

def NameEditor.getModifiedNames (ne : NameEditor) : Str × Str :=
  (joinWords ne.words0, joinWords ne.words1)

/-- `_getPairIndicesAndWords` (lines 353-368). -/
def getPairIndicesAndWords (name0 name1 : Str) : List (Nat × Nat × Str × Str) :=
  let combo := findWhichWordsMatchAndHowWell name0 name1
  let words0 := splitWords name0
  let words1 := splitWords name1
  combo.map (fun tup => (tup.1, tup.2.1, words0.getD tup.1 [], words1.getD tup.2.1 []))

/-- The mismatch scan of `_fixVowelMistakes` (lines 1136-1149),
including the `if mismatchedIndex:` truthiness quirk: a recorded
mismatch at index 0 is falsy, so it is overwritten instead of flagging
a second difference. -/
def vowelScanGo : Str → Str → Nat → Option Nat → Option Nat × Bool
  | [], _, _, m => (m, false)
  | _ :: _, [], _, m => (m, false)
  | c0 :: cs0, c1 :: cs1, i, m =>
    if c0 = c1 then vowelScanGo cs0 cs1 (i + 1) m
    else
      if (match m with | some k => decide (k ≠ 0) | none => false) then (m, true)
      else vowelScanGo cs0 cs1 (i + 1) (some i)

/-- `_fixVowelMistakes` (lines 1110-1163). -/
def fixVowelMistakes (name0 name1 : Str) : Str × Str :=
  let pairs := getPairIndicesAndWords name0 name1
  let ne := pairs.foldl (fun (ne : NameEditor) p =>
    let index0 := p.1
    let word0 := p.2.2.1
    let word1 := p.2.2.2
    let len0 := word0.length
    if len0 < 5 then ne
    else
      let len1 := word1.length
      if len1 < 5 then ne
      else if len0 ≠ len1 then ne
      else
        match vowelScanGo word0 word1 0 none with
        | (some mismatchedIndex, false) =>
          let charWord0 := [word0.getD mismatchedIndex ' ']
          let charWord1 := [word1.getD mismatchedIndex ' ']
          let cooresponding := [str "ao", str "ea", str "iy"]
          if (charWord0 ++ charWord1) ∈ cooresponding ∨
              (charWord1 ++ charWord0) ∈ cooresponding
          then ne.updateName0 index0 word1 else ne
        | _ => ne) (NameEditor.make name0 name1)
  ne.getModifiedNames

/-- Python `abs(a - b)` for naturals. -/
def natAbsDiff (a b : Nat) : Nat := if a ≥ b then a - b else b - a

/-- The differing positions of two equal-length words
(lines 1189-1195). -/
def diffPositions (word0 word1 : Str) : List Nat :=
  (List.range word0.length).filter (fun i => word0.getD i ' ' ≠ word1.getD i ' ')

/-- `_fixSwappedChars` (lines 1165-1214).  Line 1207 tests
`word0[posI] != word1[posJ]` twice (the second disjunct is a duplicate
of the first instead of testing `word0[posJ] != word1[posI]`); the model
reproduces the duplicated conjunct verbatim. -/
def fixSwappedChars (name0 name1 : Str) : Str × Str :=
  let pairs := getPairIndicesAndWords name0 name1
  let ne := pairs.foldl (fun (ne : NameEditor) p =>
    let index0 := p.1
    let word0 := p.2.2.1
    let word1 := p.2.2.2
    if word0.length ≠ 5 then ne
    else if word0.length ≠ word1.length then ne
    else if fuzzRatio word1 word0 ≠ 80 then ne
    else
      let diffPos := diffPositions word0 word1
      if diffPos.length ≠ 2 then ne
      else
        let posI := diffPos.getD 0 0
        let posJ := diffPos.getD 1 0
        if natAbsDiff posI posJ ≠ 1 then ne
        else if (word0.getD posI ' ' ≠ word1.getD posJ ' ') ∨
            (word0.getD posI ' ' ≠ word1.getD posJ ' ') then ne
        else ne.updateName0 index0 word1) (NameEditor.make name0 name1)
  ne.getModifiedNames

/-- The adjacent-swap repair condition as claim C9 words it: both
lengths exactly 5, ratio exactly 80, exactly two adjacent differing
positions forming a genuine transposition
(`L[i]==R[j]` and `L[j]==R[i]`). -/
def claimSwapCondition (word0 word1 : Str) : Bool :=
  word0.length = 5 ∧ word1.length = 5 ∧ fuzzRatio word1 word0 = 80 ∧
  (diffPositions word0 word1).length = 2 ∧
  natAbsDiff ((diffPositions word0 word1).getD 0 0)
    ((diffPositions word0 word1).getD 1 0) = 1 ∧
  word0.getD ((diffPositions word0 word1).getD 0 0) ' ' =
    word1.getD ((diffPositions word0 word1).getD 1 0) ' ' ∧
  word0.getD ((diffPositions word0 word1).getD 1 0) ' ' =
    word1.getD ((diffPositions word0 word1).getD 0 0) ' '

/-- `_dealWithWrongFirstChar` (lines 1216-1233). -/
def dealWithWrongFirstChar (name0 name1 : Str) : Str × Str :=
  let pairs := getPairIndicesAndWords name0 name1
  let ne := pairs.foldl (fun (ne : NameEditor) p =>
    let index1 := p.1
    let word1 := p.2.2.1
    let word2 := p.2.2.2
    if word1 = word2 then ne
    else if word1.drop 1 = word2.drop 1 ∧ word1.length > 4 ∧ word2.length > 4 then
      ne.updateName0 index1 word2
    else ne) (NameEditor.make name0 name1)
  ne.getModifiedNames

/-! ## The rule engine (`_replaceSubstringSandwichMeatIfMatchingBread`) -/

/-- Does the regex `b1(mA|mB)b2` (all pieces literal) match at the
start of `w`?  Returns the meat; `mA` preferred, as in Python regex
alternation. -/
def sandwichAt (b1 mA mB b2 w : Str) : Option Str :=
  if (b1 ++ mA ++ b2).isPrefixOf w then some mA
  else if (b1 ++ mB ++ b2).isPrefixOf w then some mB
  else none

/-- Leftmost search for `b1(mA|mB)b2`; returns the match start and its
meat (`re.search` on a metacharacter-free alternation pattern). -/
def searchSandwichGo (b1 mA mB b2 : Str) : Nat → Str → Option (Nat × Str)
  | i, [] => (sandwichAt b1 mA mB b2 []).map (fun m => (i, m))
  | i, c :: cs =>
    match sandwichAt b1 mA mB b2 (c :: cs) with
    | some m => some (i, m)
    | none => searchSandwichGo b1 mA mB b2 (i + 1) cs

def searchSandwich (b1 mA mB b2 w : Str) : Option (Nat × Str) :=
  searchSandwichGo b1 mA mB b2 0 w

/-- `overwriteWithSubstring` (lines 1251-1266): Python list-slice
assignment `stringList[startIndex:endIndex] = replacement`. -/
def overwriteWithSubstring (s replacement : Str) (startIndex endIndex : Nat) : Str :=
  s.take startIndex ++ replacement ++ s.drop endIndex

/-- The innermost block of the rule engine for one bread pair
(lines 1297-1320): search both words, require different matched spans
(different meats) at offsets within 2, then overwrite both meat regions
with `meatOption2`. -/
def sandwichStep (mA mB b1 b2 : Str) (w0 w1 : Str) : Str × Str :=
  match searchSandwich b1 mA mB b2 w0, searchSandwich b1 mA mB b2 w1 with
  | some r0, some r1 =>
    let g0 := b1 ++ r0.2 ++ b2
    let g1 := b1 ++ r1.2 ++ b2
    if g0 = g1 then (w0, w1)
    else
      let spanA1 := r0.1
      let spanB1 := r0.1 + g0.length
      let spanA2 := r1.1
      let spanB2 := r1.1 + g1.length
      if ¬ (natAbsDiff spanA1 spanA2 ≤ 2 ∧ natAbsDiff spanB1 spanB2 ≤ 2) then (w0, w1)
      else
        (overwriteWithSubstring w0 mB (spanA1 + b1.length) (spanB1 - b2.length),
         overwriteWithSubstring w1 mB (spanA2 + b1.length) (spanB2 - b2.length))
  | _, _ => (w0, w1)

/-- The bread loops of the rule engine (lines 1286-1320), threading the
current (possibly already rewritten) words. -/
def sandwichBreadFold (mA mB : Str) (bottoms tops : List Str) (w0 w1 : Str) : Str × Str :=
  bottoms.foldl (fun (ws : Str × Str) bottomBread =>
    if ¬ (containsSub ws.1 bottomBread ∧ containsSub ws.2 bottomBread) then ws
    else tops.foldl (fun (ws : Str × Str) topBread =>
      if ¬ (containsSub ws.1 topBread ∧ containsSub ws.2 topBread) then ws
      else sandwichStep mA mB bottomBread topBread ws.1 ws.2) ws) (w0, w1)

/-- `_replaceSubstringSandwichMeatIfMatchingBread` (lines 1235-1330). -/
def replaceSubstringSandwichMeatIfMatchingBread (name0 name1 : Str)
    (meatOption1 meatOption2 : Str) (bottomBreadOptions topBreadOptions : List Str)
    (minRequiredLetters : Nat) : Str × Str :=
  if (¬ containsSub name0 meatOption1 ∧ ¬ containsSub name0 meatOption2) ∨
      (¬ containsSub name1 meatOption1 ∧ ¬ containsSub name1 meatOption2) then
    (name0, name1)
  else
    let pairs := getPairIndicesAndWords name0 name1
    let ne := pairs.foldl (fun (ne : NameEditor) p =>
      let index0 := p.1
      let index1 := p.2.1
      let word0 := p.2.2.1
      let word1 := p.2.2.2
      if word0.length < minRequiredLetters ∨ word1.length < minRequiredLetters then ne
      else
        let w0 := ['-'] ++ word0 ++ ['-']
        let w1 := ['-'] ++ word1 ++ ['-']
        let ws := sandwichBreadFold meatOption1 meatOption2
          bottomBreadOptions topBreadOptions w0 w1
        let word0 := replaceAll ws.1 (str "-") []
        let word1 := replaceAll ws.2 (str "-") []
        (ne.updateName0 index0 word0).updateName1 index1 word1)
      (NameEditor.make name0 name1)
    ne.getModifiedNames

/-- Apply a whole rule (the per-rule call at line 1045). -/
def applyRule (p : Str × Str) (rule : Rule) : Str × Str :=
  replaceSubstringSandwichMeatIfMatchingBread p.1 p.2
    rule.meatA rule.meatB rule.bottoms rule.tops rule.minLen

/-! ## Rule-engine lemmas and claims C8, C9 -/

/-! ## Claim C3: idempotence of single-name cleaning -/

/-! ## The pair-aware cleaner (`_cleanNamesTogether` and helpers) -/

/-- The average of the scores of an alignment; `none` models Python's
ZeroDivisionError on an empty alignment. -/
def averageScore (combo : List (Nat × Nat × Int)) : Option Rat :=
  if combo.length = 0 then none
  else some ((sumScore combo : Rat) / (combo.length : Rat))

/-- `_calculateEditImprovement` (lines 333-351). -/
def calculateEditImprovement (name0 name1 name0Edited name1Edited : Str) :
    Option (Rat × List (Nat × Nat × Int) × List (Nat × Nat × Int)) :=
  let ogWordCombo := findWhichWordsMatchAndHowWell name0 name1
  let editedWordCombo := findWhichWordsMatchAndHowWell name0Edited name1Edited
  match averageScore ogWordCombo, averageScore editedWordCombo with
  | some ogAverageScore, some editedAverageScore =>
    some (editedAverageScore - ogAverageScore, ogWordCombo, editedWordCombo)
  | _, _ => none

/-- The pair loop of `_combineSplitWords` (lines 642-707): `continue`
chains become recursion on the remaining pairs, the mid-loop
`return False` when both neighbors are initials is kept. -/
def combineSplitWordsGo (name0 name1 : Str) (words0 : List Str) :
    List (Nat × Nat × Str × Str) → Option (Bool × Str × Str)
  | [] => some (false, name0, name1)
  | p :: rest =>
    let index0 := p.1
    let word0 := p.2.2.1
    let word1 := p.2.2.2
    if fuzzPRatio word0 word1 < 75 then combineSplitWordsGo name0 name1 words0 rest
    else if word0.length = 1 ∨ word1.length = 1 then
      combineSplitWordsGo name0 name1 words0 rest
    else
      let leftNeighbor := if 1 ≤ index0 then words0.getD (index0 - 1) [] else []
      let rightNeighbor := if index0 + 1 < words0.length then words0.getD (index0 + 1) [] else []
      let leftNeighbor := if leftNeighbor.length > 1 then leftNeighbor else []
      let rightNeighbor := if rightNeighbor.length > 1 then rightNeighbor else []
      if leftNeighbor = [] ∧ rightNeighbor = [] then some (false, name0, name1)
      else
        let leftWasChosen :=
          if leftNeighbor = [] then false
          else if rightNeighbor = [] then true
          else if fuzzPRatio leftNeighbor word1 > fuzzPRatio rightNeighbor word1
            then true else false
        let chosenNeighbor := if leftWasChosen then leftNeighbor else rightNeighbor
        let compound := if leftWasChosen then leftNeighbor ++ word0 else word0 ++ rightNeighbor
        let indexN := if leftWasChosen then index0 - 1 else index0 + 1
        if fuzzPRatio chosenNeighbor word1 < 65 then
          combineSplitWordsGo name0 name1 words0 rest
        else
          let ogScore := fuzzRatio word0 word1
          let compoundScore := fuzzRatio compound word1
          if compoundScore < ogScore + 20 then combineSplitWordsGo name0 name1 words0 rest
          else
            let diffLength0 := natAbsDiff word1.length word0.length
            let diffLengthCompound := natAbsDiff word1.length compound.length
            if diffLength0 < diffLengthCompound then
              combineSplitWordsGo name0 name1 words0 rest
            else
              let ne := ((NameEditor.make name0 name1).updateName0 index0 compound).updateName0
                indexN []
              let name0Edited := ne.getModifiedNames.1
              match calculateEditImprovement name0 name1 name0Edited name1 with
              | none => none
              | some r =>
                if r.1 > -1 then some (true, name0Edited, name1)
                else combineSplitWordsGo name0 name1 words0 rest

/-- `_combineSplitWords` (lines 622-710). -/
def combineSplitWords (name0 name1 : Str) : Option (Bool × Str × Str) :=
  let words0 := splitWords name0
  if words0.length < 3 then some (false, name0, name1)
  else if (spellingComparison name0 name1).1 then some (false, name0, name1)
  else combineSplitWordsGo name0 name1 words0 (getPairIndicesAndWords name0 name1)

/-- `_dealWithDashes` (lines 302-331). -/
def dealWithDashes (name0 name1 : Str) : Option (Str × Str) :=
  if ¬ containsSub name0 (str "-") ∧ ¬ containsSub name1 (str "-") then some (name0, name1)
  else if containsSub name0 (str "-") ∧ containsSub name1 (str "-") then some (name0, name1)
  else do
    let name0Edited := replaceAll name0 (str "-") (str " ")
    let name1Edited := replaceAll name1 (str "-") (str " ")
    let r ← combineSplitWords name0Edited name1Edited
    let name0Edited := r.2.1
    let name1Edited := r.2.2
    let imp ← calculateEditImprovement name0 name1 name0Edited name1Edited
    if imp.1 ≤ 0 then return (name0, name1)
    else return (name0Edited, name1Edited)

/-- `_fixRelatedPrefixes` (lines 409-438). -/
def fixRelatedPfxs (name0 name1 pfxA pfxB : Str) : Str × Str :=
  let spA := [' '] ++ pfxA
  let spB := [' '] ++ pfxB
  if ¬ containsSub name0 spA ∧ ¬ containsSub name1 spA then (name0, name1)
  else if ¬ containsSub name0 spB ∧ ¬ containsSub name1 spB then (name0, name1)
  else if containsSub name0 spA ∧ containsSub name1 spA then (name0, name1)
  else if containsSub name0 spB ∧ containsSub name1 spB then (name0, name1)
  else if containsSub name0 spB then (replaceAll name0 spB spA, name1)
  else (name0, replaceAll name1 spB spA)

/-- The per-pair pass of `_fixMcMac` for one prefix (lines 459-493). -/
def fixMcMacPass (name0 name1 : Str) (pfx : Str) (ne : NameEditor) : NameEditor :=
  (getPairIndicesAndWords name0 name1).foldl (fun ne p =>
    let index0 := p.1
    let index1 := p.2.1
    let word0 := p.2.2.1
    let word1 := p.2.2.2
    if pfx.isPrefixOf word0 ∧ pfx.isPrefixOf word1 then ne
    else if ¬ pfx.isPrefixOf word0 ∧ ¬ pfx.isPrefixOf word1 then ne
    else if index0 < 1 ∨ index1 < 1 then ne
    else if min word0.length word1.length < 3 then ne
    else if fuzzRatio word0 word1 > 80 then ne
    else
      let updatedWord0 := if pfx.isPrefixOf word0 then replaceFirst word0 pfx [] else word0
      let updatedWord1 := if pfx.isPrefixOf word0 then word1 else replaceFirst word1 pfx []
      if fuzzRatio updatedWord0 updatedWord1 < 75 then ne
      else (ne.updateName0 index0 updatedWord0).updateName1 index1 updatedWord1) ne

/-- `_fixMcMac` (lines 440-496). -/
def fixMcMac (name0 name1 : Str) : Option (Str × Str) :=
  if ¬ containsSub name0 (str "mc") ∧ ¬ containsSub name0 (str "mac") ∧
      ¬ containsSub name1 (str "mc") ∧ ¬ containsSub name1 (str "mac") then
    some (name0, name1)
  else do
    let r ← combineSplitWords name0 name1
    let name0 := r.2.1
    let name1 := r.2.2
    let ne := fixMcMacPass name0 name1 (str "mac")
      (fixMcMacPass name0 name1 (str "mc") (NameEditor.make name0 name1))
    return ne.getModifiedNames

/-- `_removeIrishO` (lines 498-527).  `name.split()[-1]` is modelled by
`getLast?` (`none` = IndexError). -/
def removeIrishO (name0 name1 surname : Str) : Option (Str × Str) :=
  if ¬ containsSub name0 (str " o ") ∧ ¬ containsSub name0 (str " o") ∧
      ¬ containsSub name1 (str " o") ∧ ¬ containsSub name1 (str " o ") then
    some (name0, name1)
  else if ¬ containsSub name0 surname ∧ ¬ containsSub name1 surname then
    some (name0, name1)
  else do
    let lastname0 ← (splitWords name0).getLast?
    let name0 :=
      if fuzzRatio lastname0 surname > 75 then
        if lastname0.headD ' ' = 'o' then replaceAll name0 lastname0 surname
        else replaceAll name0 (str "o " ++ lastname0) surname
      else name0
    let lastname1 ← (splitWords name1).getLast?
    let name1 :=
      if fuzzRatio lastname1 surname > 75 then
        if lastname1.headD ' ' = 'o' then replaceAll name1 lastname1 surname
        else replaceAll name1 (str "o " ++ lastname1) surname
      else name1
    return (name0, name1)

/-- The Irish surname list (lines 242-253). -/
def oNamesList : List Str :=
  [str "beirne", str "berry", str "boyle", str "bryant", str "brian", str "brien",
   str "bryan", str "ceallaigh", str "conner", str "connor", str "conor", str "daniel",
   str "day", str "dean", str "dea", str "doherty", str "donnell", str "donnel",
   str "donoghue", str "donohue", str "donovan", str "dowd", str "driscoll",
   str "fallon", str "farrell", str "flaherty", str "flanagan", str "flynn",
   str "gara", str "gorman", str "grady", str "guinn", str "guin", str "hagan",
   str "haire", str "hair", str "halloran", str "hanlon", str "hara", str "hare",
   str "harra", str "harrow", str "haver", str "hearn", str "hern", str "herron",
   str "higgins", str "hora", str "kane", str "keefe", str "keeffe", str "kelley",
   str "kelly", str "laughlin", str "leary", str "loughlin", str "mahoney",
   str "mahony", str "maley", str "malley", str "mara", str "mary", str "meara",
   str "melia", str "moore", str "more", str "muir", str "murchu", str "mure",
   str "murphy", str "neall", str "neal", str "neill", str "neil", str "ney",
   str "niall", str "quinn", str "regan", str "reilly", str "riley", str "riordan",
   str "roark", str "rorke", str "rourke", str "ryan", str "shaughnessy", str "shea",
   str "shields", str "sullivan", str "toole", str "tool"]

/-- Match of `rf"\b{spacePfx}\w*\b"` at the start of `s` (the pattern
of line 566; `spacePfx` begins with a space, so the leading boundary
requires a word character on the left). -/
def pfxWordMatchAt (spacePfx : Str) (prev : Option Char) (s : Str) : Option Str :=
  if spacePfx.isPrefixOf s ∧ boundary prev s.head? then
    let run := (s.drop spacePfx.length).takeWhile isWordChar
    let m := spacePfx ++ run
    -- the run is maximal, so the trailing boundary holds exactly when
    -- the last matched character is a word character
    if (match m.getLast? with | some c => isWordChar c | none => false) then some m
    else none
  else none

/-- `re.search` for the pattern above (leftmost match or `none`). -/
def searchPfxWordGo (spacePfx : Str) : Option Char → Str → Option Str
  | _, [] => none
  | prev, c :: cs =>
    match pfxWordMatchAt spacePfx prev (c :: cs) with
    | some m => some m
    | none => searchPfxWordGo spacePfx (some c) cs

def searchPfxWord (spacePfx s : Str) : Option Str :=
  searchPfxWordGo spacePfx none s

/-- `_removeUnnecessaryPrefixes` (lines 529-595).  `match.group()` on a
failed `re.search` raises AttributeError (`none`); the division inside
`_calculateEditImprovement` can also raise. -/
def removeUnnecessaryPfx (name0 name1 pfx : Str) : Option (Str × Str) :=
  let name0 := collapseWs name0
  let name1 := collapseWs name1
  let spacePfx := [' '] ++ pfx
  if ¬ containsSub name0 spacePfx ∧ ¬ containsSub name1 spacePfx then some (name0, name1)
  else
    let spPfxSp := [' '] ++ pfx ++ [' ']
    let step1 : Str × Str :=
      if containsSub name0 spPfxSp ∧ containsSub name1 spPfxSp then (name0, name1)
      else if containsSub name0 spPfxSp ∧ containsSub name1 spacePfx then
        (replaceAll name0 spPfxSp spacePfx, name1)
      else if containsSub name0 spacePfx ∧ containsSub name1 spPfxSp then
        (name0, replaceAll name1 spPfxSp spacePfx)
      else (name0, name1)
    let name0Edited := collapseWs (replaceAll step1.1 spPfxSp (str " "))
    let name1Edited := collapseWs (replaceAll step1.2 spPfxSp (str " "))
    do
    let p ←
      if name0 = name0Edited ∧ name1 = name1Edited then
        if containsSub name0 spacePfx ∧ ¬ containsSub name1 spacePfx then
          match searchPfxWord spacePfx name0 with
          | none => none
          | some matchedWord =>
            if matchedWord.length > pfx.length + 4 then
              some (replaceAll name0 spacePfx (str " "), name1Edited)
            else some (name0Edited, name1Edited)
        else if containsSub name1 spacePfx ∧ ¬ containsSub name0 spacePfx then
          match searchPfxWord spacePfx name1 with
          | none => none
          | some matchedWord =>
            if matchedWord.length > pfx.length + 4 then
              some (name0Edited, replaceAll name1 spacePfx (str " "))
            else some (name0Edited, name1Edited)
        else some (name0Edited, name1Edited)
      else some (name0Edited, name1Edited)
    let name0Edited := p.1
    let name1Edited := p.2
    let imp ← calculateEditImprovement name0 name1 name0Edited name1Edited
    if imp.1 ≥ 10 ∨ ((spellingComparison name0Edited name1Edited).1 ∧
        ¬ (spellingComparison name0 name1).1) then
      return (name0Edited, name1Edited)
    else
      let ne := (getPairIndicesAndWords name0 name1).foldl (fun (ne : NameEditor) q =>
        let index0 := q.1
        let index1 := q.2.1
        let word0 := q.2.2.1
        let word1 := q.2.2.2
        if pfx.isPrefixOf word0 ∧ word0.drop pfx.length = word1 ∧ word1.length > 2 then
          ne.updateName0 index0 (word0.drop pfx.length)
        else if pfx.isPrefixOf word1 ∧ word1.drop pfx.length = word0 ∧ word0.length > 2 then
          ne.updateName1 index1 (word1.drop pfx.length)
        else ne) (NameEditor.make name0 name1)
      return ne.getModifiedNames

/-- Python `s.index(pat)` (leftmost occurrence). -/
def indexOfSubGo (pat : Str) : Nat → Str → Option Nat
  | i, [] => if pat.isPrefixOf [] then some i else none
  | i, c :: cs => if pat.isPrefixOf (c :: cs) then some i else indexOfSubGo pat (i + 1) cs

def indexOfSub (s pat : Str) : Option Nat := indexOfSubGo pat 0 s

/-- `re.search(f' {prefix} .', name)` succeeds iff some occurrence of
`" prefix "` is followed by at least one character. -/
def hasSubFollowed : Str → Str → Bool
  | [], _ => false
  | c :: cs, pat =>
    (pat.isPrefixOf (c :: cs) ∧ (c :: cs).length > pat.length) ∨ hasSubFollowed cs pat

/-- `_combinePrefixWithSurnameifInBoth` (lines 597-620).  The source
reads `name[name.index(f' {prefix} ') + 4]`: the offset 4 is hard-coded,
so for the prefix `"van"` the compared "letters" are the trailing spaces
of `" van "` and the fusion fires for any following letters. -/
def combinePfxWithSurname (name0 name1 pfx : Str) : Option (Str × Str) :=
  let spPfxSp := [' '] ++ pfx ++ [' ']
  if ¬ hasSubFollowed name0 spPfxSp ∨ ¬ hasSubFollowed name1 spPfxSp then
    some (name0, name1)
  else do
    let idx0 ← indexOfSub name0 spPfxSp
    let letter0 ← name0.get? (idx0 + 4)
    let idx1 ← indexOfSub name1 spPfxSp
    let letter1 ← name1.get? (idx1 + 4)
    if letter0 = letter1 then
      return (replaceAll name0 spPfxSp ([' '] ++ pfx),
        replaceAll name1 spPfxSp ([' '] ++ pfx))
    else return (name0, name1)

/-- The split-word recombination loop (lines 284-291): iterate to a
fixed point.  Each successful combination merges two words into one, so
the word count strictly decreases and the initial word count bounds the
iterations; the fuel never runs out. -/
def combineLoop : Nat → Str → Str → Option (Str × Str)
  | 0, name0, name1 => some (name0, name1)
  | fuel + 1, name0, name1 => do
    let r ← combineSplitWords name0 name1
    if r.1 then combineLoop fuel r.2.1 r.2.2
    else return (r.2.1, r.2.2)

/-- The ordered prefix list of lines 260-279. -/
def pfxList : List Str :=
  [str "d'", str "de", str "fi", str "santa", str "san", str "de la", str "de los",
   str "del", str "la", str "le", str "du", str "dela", str "los", str "der",
   str "den", str "vanden", str "vander", str "vande", str "van", str "von"]

/-- `_cleanNamesTogether` (lines 220-300). -/
def cleanNamesTogether (name0 name1 : Str) : Option (Str × Str) :=
  if name0 = [] ∨ name1 = [] then some (name0, name1)
  else do
    let (name0, name1) ← dealWithDashes name0 name1
    let p := fixRelatedPfxs name0 name1 (str "mac") (str "mc")
    let (name0, name1) ← fixMcMac p.1 p.2
    let (name0, name1) ← oNamesList.foldlM
      (fun (q : Str × Str) surname => removeIrishO q.1 q.2 surname) (name0, name1)
    let p := fixRelatedPfxs name0 name1 (str "de") (str "di")
    let p := fixRelatedPfxs p.1 p.2 (str "del") (str "dil")
    let (name0, name1) ← pfxList.foldlM
      (fun (q : Str × Str) pfx => removeUnnecessaryPfx q.1 q.2 pfx) (p.1, p.2)
    let (name0, name1) ← combinePfxWithSurname name0 name1 (str "de")
    let (name0, name1) ← combinePfxWithSurname name0 name1 (str "van")
    let (name0, name1) ← combineLoop ((splitWords name0).length + 1) name0 name1
    let (name1, name0) ← combineLoop ((splitWords name1).length + 1) name1 name0
    let name0 := pyStrip (collapseWs name0)
    let name1 := pyStrip (collapseWs name1)
    return (name0, name1)

/-! ## Nickname substitution (`_removeNicknames`) -/

/-- The nickname index built in `__init__` (lines 46-52): for each set
containing the word, its position; duplicates within one set repeat the
position, as the source's append loop does. -/
def nicknameSetNums (rd : RefData) (w : Str) : List Nat :=
  rd.nicknameSets.enum.bind (fun p => (p.2.filter (fun n => n = w)).map (fun _ => p.1))

/-- Case-insensitive literal prefix test (`re.IGNORECASE`). -/
def ciPrefix (w s : Str) : Bool :=
  (s.take w.length).map Char.toLower = w.map Char.toLower

/-- Case-insensitive whole-word substitution,
`re.sub(rf"\b{w}\b", repl, s, flags=re.IGNORECASE)` (fuel-structural). -/
def wordSubCIGo (w repl : Str) : Nat → Option Char → Str → Str
  | 0, _, s => s
  | _, _, [] => []
  | fuel + 1, prev, c :: cs =>
    if ciPrefix w (c :: cs) ∧ w ≠ [] ∧ (c :: cs).length ≥ w.length ∧
        boundary prev (some c) ∧
        boundary ((c :: cs).take w.length).getLast? ((c :: cs).drop w.length).head? then
      repl ++ wordSubCIGo w repl fuel ((c :: cs).take w.length).getLast? (cs.drop (w.length - 1))
    else c :: wordSubCIGo w repl fuel (some c) cs

def wordSubCI (w repl s : Str) : Str := wordSubCIGo w repl s.length none s

/-- The inner candidate scan of `_removeNicknames` (lines 892-898):
first member of the class (other than `word0`) that occurs in `words1`
but not in `words0`.  Python iterates a `set`; the model iterates the
class list with duplicates removed, keeping first occurrences. -/
def findSubstituteInSet (words0 words1 : List Str) (cands : List Str) : Option Str :=
  cands.find? (fun nickname =>
    if nickname ∈ words0 ∧ nickname ∈ words1 then false
    else decide (nickname ∈ words1))

/-- The class loop of `_removeNicknames` (lines 889-900). -/
def findSubstitute (rd : RefData) (words0 words1 : List Str) (word0 : Str) :
    List Nat → Option Str
  | [] => none
  | num :: rest =>
    let nicknames := (rd.nicknameSets.getD num []).eraseDups.filter (fun n => n ≠ word0)
    match findSubstituteInSet words0 words1 nicknames with
    | some n => some n
    | none => findSubstitute rd words0 words1 word0 rest

/-- `_removeNicknames` (lines 864-902): each substitutable word of
`name0` is replaced (whole word, case-insensitive) by the first fitting
class member found in `name1`; `words0`/`words1` stay the original
splits while `name0` accumulates the substitutions, as in the source. -/
def removeNicknames (rd : RefData) (name0 name1 : Str) : Str × Str :=
  let words0 := splitWords name0
  let words1 := splitWords name1
  let name0 := words0.foldl (fun name0 word0 =>
    if word0 ∈ words1 then name0
    else
      match nicknameSetNums rd word0 with
      | [] => name0
      | setNums =>
        match findSubstitute rd words0 words1 word0 setNums with
        | some nickname => wordSubCI word0 nickname name0
        | none => name0) name0
  (name0, name1)

/-! ## `_modifyNamesTogether` and its helpers -/

/-- `re.sub(r'ie\b', 'y', name)`: trailing word boundary only
(fuel-structural). -/
def tailBSubGo (w repl : Str) : Nat → Str → Str
  | 0, s => s
  | _, [] => []
  | fuel + 1, c :: cs =>
    if w.isPrefixOf (c :: cs) ∧ w ≠ [] ∧
        boundary w.getLast? ((c :: cs).drop w.length).head? then
      repl ++ tailBSubGo w repl fuel (cs.drop (w.length - 1))
    else c :: tailBSubGo w repl fuel cs

def tailBSub (w repl s : Str) : Str := tailBSubGo w repl s.length s

def isLowerAlpha (c : Char) : Bool := 'a' ≤ c && c ≤ 'z'

/-- `re.sub("[a-z]+ or ", " ", name)`: a letter run directly followed
by `" or "` (the run cannot backtrack shorter, since `" or "` starts
with a non-letter); fuel-structural. -/
def subWordOrF : Nat → Str → Str
  | 0, s => s
  | _, [] => []
  | fuel + 1, c :: cs =>
    let run := (c :: cs).takeWhile isLowerAlpha
    if run ≠ [] ∧ (str " or ").isPrefixOf ((c :: cs).drop run.length) then
      ' ' :: subWordOrF fuel ((c :: cs).drop (run.length + 4))
    else c :: subWordOrF fuel cs

def subWordOr (s : Str) : Str := subWordOrF s.length s

/-- `re.sub(" or [a-z]+", " ", name)`. -/
def subOrWordF : Nat → Str → Str
  | 0, s => s
  | _, [] => []
  | fuel + 1, c :: cs =>
    if (str " or ").isPrefixOf (c :: cs) ∧
        (((c :: cs).drop 4).head?.map isLowerAlpha).getD false = true then
      let run := ((c :: cs).drop 4).takeWhile isLowerAlpha
      ' ' :: subOrWordF fuel ((c :: cs).drop (4 + run.length))
    else c :: subOrWordF fuel cs

def subOrWord (s : Str) : Str := subOrWordF s.length s

/-- `_removeOrInNames` (lines 1056-1108).  The average over an empty
alignment would raise ZeroDivisionError (`none`). -/
def removeOrInNames (name0 name1 : Str) : Option (Str × Str) :=
  let name0 := toLowerStr name0
  let name1 := toLowerStr name1
  if ¬ containsSub name0 (str " or ") ∧ ¬ containsSub name1 (str " or ") then
    some (name0, name1)
  else if containsSub name0 (str " or ") ∧ containsSub name1 (str " or ") then
    some (name0, name1)
  else if containsSub name0 (str " or ") then do
    let name0EditedA := subWordOr name0
    let averageScoreA ← averageScore (findWhichWordsMatchAndHowWell name0EditedA name1)
    let name0EditedB := subOrWord name0
    let averageScoreB ← averageScore (findWhichWordsMatchAndHowWell name0EditedB name1)
    if averageScoreA ≥ averageScoreB then return (name0EditedA, name1)
    else return (name0EditedB, name1)
  else do
    let name1EditedA := subWordOr name1
    let averageScoreA ← averageScore (findWhichWordsMatchAndHowWell name1EditedA name0)
    let name1EditedB := subOrWord name1
    let averageScoreB ← averageScore (findWhichWordsMatchAndHowWell name1EditedB name0)
    if averageScoreA ≥ averageScoreB then return (name0, name1EditedA)
    else return (name0, name1EditedB)

/-- `_modifyNamesTogether` (lines 1017-1054). -/
def modifyNamesTogether (rd : RefData) (name0 name1 : Str) : Option (Str × Str) := do
  let name0 := tailBSub (str "ie") (str "y") name0
  let name1 := tailBSub (str "ie") (str "y") name1
  let (name0, name1) ← removeOrInNames name0 name1
  let p := fixVowelMistakes name0 name1
  let p := fixSwappedChars p.1 p.2
  let p := dealWithWrongFirstChar p.1 p.2
  let p := rd.spellingRules.foldl applyRule p
  return (pyStrip (collapseWs p.1), pyStrip (collapseWs p.2))

/-! ## The phonetic encoder and pronunciation matcher -/

/-- `_pronunciationHailMary` (lines 1526-1538). -/
def pronunciationHailMary (rd : RefData) (word : Str) : Str :=
  match dictGet rd.namesToIpa word with
  | some namePronuncation => namePronuncation
  | none => word ++ ['*']

/-- `_convert` (lines 1540-1553). -/
def convertSyllable (rd : RefData) (word : Str) : Str :=
  match dictGet rd.syllableToIpa word with
  | some ipaPronunciation => ipaPronunciation
  | none => word ++ ['*']

/-- The single-letter fallback table of lines 1502-1506. -/
def letterToPron : List (Char × Str) :=
  [('a', str "æ"), ('b', str "b"), ('c', str "k"), ('d', str "d"), ('e', str "ɛ"),
   ('f', str "f"), ('g', str "g"), ('h', str "h"), ('i', str "ɪ"), ('j', str "ʤ"),
   ('k', str "k"), ('l', str "l"), ('m', str "m"), ('n', str "n"), ('o', str "o"),
   ('p', str "p"), ('q', str "k"), ('r', str "r"), ('s', str "s"), ('t', str "t"),
   ('u', str "u"), ('v', str "v"), ('w', str "w"), ('x', str "ks"), ('y', str "j"),
   ('z', str "z")]

/-- `substringSplitsTh` (lines 1450-1468).  Python's `i >= 0` is always
true, and for `i = 0` the guard reads `word[-1]`, the LAST character of
the working word; the model reproduces this. -/
def substringSplitsTh (substring word : Str) (i j : Nat) : Bool :=
  if i = j then false
  else
    let prevChar := if i = 0 then word.getLast? else word.get? (i - 1)
    if substring.headD ' ' = 'h' ∧ prevChar = some 't' then true
    else if j + 1 ≤ word.length ∧ substring.getLastD ' ' = 't' ∧ word.get? j = some 'h'
      then true
    else false

/-- All `(i, j)` substring index pairs in the source's scan order
(lines 1487-1488): `i` ascending, `j` from `i+1` to `len`. -/
def ipaScanPairs (len : Nat) : List (Nat × Nat) :=
  (List.range len).bind (fun i => (List.range (len - i)).map (fun d => (i, i + 1 + d)))

/-- One candidate-substring step of the scan (lines 1489-1513); the
state is `(largestSubstring, pronunciationOfLargestSubstring,
largestSubstringLen, beginningIndex, endIndex, substringAdded)`. -/
def ipaScanStep (rd : RefData) (word : Str)
    (st : Str × Str × Nat × Nat × Nat × Bool) (p : Nat × Nat) :
    Str × Str × Nat × Nat × Nat × Bool :=
  let i := p.1
  let j := p.2
  let substring := (word.take j).drop i
  if substring.length ≤ st.2.2.1 then st
  else if containsSub substring (str " ") then st
  else if substring.length > 1 then
    let substringIpa := convertSyllable rd substring
    if containsSub substringIpa (str "*") ∨ substringIpa.length ≥ substring.length * 2 ∨
        substringSplitsTh substring word i j then st
    else (substring, substringIpa, substring.length, i, j, true)
  else
    -- a length-1 substring: `letterToPronunciation.get(substring, largestSubstring)`
    -- falls back to the CURRENT largestSubstring value
    let pr := match letterToPron.find? (fun q => q.1 = substring.headD ' ') with
      | some q => q.2
      | none => st.1
    (substring, pr, substring.length, i, j, true)

/-- The greedy while-loop of `_getIpaOfOneWord` (lines 1477-1520).
Each successful iteration blanks at least one non-space character, so
the initial word length bounds the iterations (the fuel never runs
out). -/
def ipaLoop (rd : RefData) : Nat → Str → List Str → List Str
  | 0, _, pronunciationList => pronunciationList
  | fuel + 1, word, pronunciationList =>
    let st := (ipaScanPairs word.length).foldl (ipaScanStep rd word)
      ([], [], 0, 0, 0, false)
    if st.2.2.2.2.2 then
      let pronunciationList := pronunciationList.set st.2.2.2.1 st.2.1
      let word := pyRstrip word
      let word := word.take st.2.2.2.1 ++ List.replicate st.2.2.1 ' ' ++
        word.drop st.2.2.2.2.1
      ipaLoop rd fuel word pronunciationList
    else pronunciationList

/-- The body of `_getIpaOfOneWord` (lines 1435-1524), without the
`lru_cache` wrapper. -/
def getIpaOfOneWordPure (rd : RefData) (word : Str) : Str :=
  let word := replaceAll word (str " ") []
  let word := unidecodeM word
  let word := toLowerStr word
  let firstAttempt := pronunciationHailMary rd word
  if ¬ containsSub firstAttempt (str "*") then firstAttempt
  else
    (ipaLoop rd (word.length + 1) word (List.replicate word.length [])).join

/-- The `@lru_cache(maxsize=1000)` on `_getIpaOfOneWord`, modelled as an
unbounded association list keyed on the argument word (evicting entries
can only cause recomputation of the same pure value, so the bound is
unobservable in the returned strings). -/
abbrev IpaCache := List (Str × Str)

def getIpaOfOneWordC (rd : RefData) (cache : IpaCache) (word : Str) : Str × IpaCache :=
  match (cache.find? (fun p => p.1 = word)).map (fun p => p.2) with
  | some v => (v, cache)
  | none =>
    let v := getIpaOfOneWordPure rd word
    (v, (word, v) :: cache)

/-- One word of `_getPronunciation`'s list building (lines 1429-1431),
threading the cache. -/
def pronFoldStep (rd : RefData) (acc : List Str × IpaCache) (w : Str) :
    List Str × IpaCache :=
  let v := getIpaOfOneWordC rd acc.2 w
  (acc.1 ++ [v.1], v.2)

/-- `_getPronunciation` (lines 1420-1433), threading the cache. -/
def getPronunciationC (rd : RefData) (cache : IpaCache) (name : Str) : Str × IpaCache :=
  let r := (splitWords name).foldl (pronFoldStep rd) ([], cache)
  (joinWords r.1, r.2)

/-- `_cleanIpa` (lines 1555-1574). -/
def allIpaConsonants : List Char :=
  ['l', 'd', 'z', 'b', 't', 'k', 'n', 's', 'w', 'v', 'ð', 'ʒ', 'ʧ', 'θ', 'h', 'g',
   'ʤ', 'ŋ', 'p', 'm', 'ʃ', 'f', 'j', 'r']

def cleanIpa (ipa : Str) : Str :=
  let ipa := allIpaConsonants.foldl (fun ipa consonant =>
    if containsSub ipa [consonant, consonant] then
      replaceAll ipa [consonant, consonant] [consonant]
    else ipa) ipa
  let ipa := replaceAll ipa (str "ɛɛ") (str "i")
  let ipa := replaceAll ipa (str "ɪɪ") (str "ɪ")
  let ipa := replaceAll ipa (str "iɪ") (str "i")
  let ipa := replaceAll ipa (str "ŋg") (str "ŋ")
  replaceAll ipa (str ",") []

/-- `_modifyIpasTogether` (lines 1576-1588). -/
def modifyIpasTogether (rd : RefData) (ipa0 ipa1 : Str) : Str × Str :=
  rd.ipaRules.foldl applyRule (ipa0, ipa1)

/-- Python `max(l, key=sum)`: first element attaining the maximum sum
(`ValueError`/`none` on an empty list). -/
def firstMaxBySum (l : List (List (Nat × Nat × Int))) : Option (List (Nat × Nat × Int)) :=
  match l with
  | [] => none
  | v :: vs => some (vs.foldl (fun best c => if sumScore c > sumScore best then c else best) v)

/-- Python `min(l, key=score)[2]`: the score of the first element
attaining the minimum (`ValueError`/`none` on an empty list). -/
def firstMinScore (l : List (Nat × Nat × Int)) : Option Int :=
  match l with
  | [] => none
  | v :: vs => some ((vs.foldl (fun best c => if c.2.2 < best.2.2 then c else best) v).2.2)

/-- `_pronunciationComparison` (lines 1332-1418), threading the IPA
cache.  The pre-IPA alignment's 0/100 initial scores override the IPA
ratios at the same index pair. -/
def pronunciationComparisonC (rd : RefData) (cache : IpaCache) (name0 name1 : Str) :
    Option (Bool × List (Nat × Nat × Int) × Str × Str) × IpaCache :=
  let wordCombo := findWhichWordsMatchAndHowWell name0 name1
  let r0 := getPronunciationC rd cache name0
  let r1 := getPronunciationC rd r0.2 name1
  let cache := r1.2
  let ipaOfName0 := cleanIpa r0.1
  let ipaOfName1 := cleanIpa r1.1
  let p := modifyIpasTogether rd ipaOfName0 ipaOfName1
  let ipaOfName0 := p.1
  let ipaOfName1 := p.2
  let ipaWords0 := splitWords ipaOfName0
  let ipaWords1 := splitWords ipaOfName1
  let scores := ipaWords0.enum.bind (fun pi => ipaWords1.enum.map (fun pj =>
    let score := fuzzRatio pi.2 pj.2
    let score := wordCombo.foldl (fun score k =>
      if pi.1 = k.1 ∧ pj.1 = k.2.1 ∧ (k.2.2 = 100 ∨ k.2.2 = 0) then k.2.2 else score)
      score
    (pi.1, pj.1, score)))
  let minLength := min ipaWords0.length ipaWords1.length
  let valids := (combinationsL minLength scores).filter validCombo
  let res :=
    match firstMaxBySum valids with
    | none => none
    | some maxCombination =>
      match firstMinScore maxCombination with
      | none => none
      | some lowestScore =>
        if minLength ≤ 2 then
          some (decide (lowestScore ≥ 80), maxCombination, ipaOfName0, ipaOfName1)
        else
          some (decide (lowestScore > 75), maxCombination, ipaOfName0, ipaOfName1)
  (res, cache)

/-! ## The pipeline controller (`compareTwoNames`) -/

/-- The result record of `compareTwoNames` (lines 79-87); `isMatch` is
the dict key `'match'` (a Lean keyword). -/
structure CompareResult where
  isMatch : Bool
  tooGeneric : Bool
  tooShort : Bool
  attempt1 : Option (Str × Str × List (Nat × Nat × Int))
  attempt2 : Option (Str × Str × List (Nat × Nat × Int))
  attempt3 : Option (Str × Str × List (Nat × Nat × Int))
  attempt4 : Option (Str × Str × List (Nat × Nat × Int))
deriving DecidableEq

/-- `compareTwoNames` (lines 68-138), threading the IPA cache through
attempts 3 and 4; `none` models an uncaught exception. -/
def compareTwoNamesC (rd : RefData) (cache : IpaCache) (name0 name1 : Str) :
    Option CompareResult × IpaCache :=
  let name0 := cleanNameByItself name0
  let name1 := cleanNameByItself name1
  match cleanNamesTogether name0 name1 with
  | none => (none, cache)
  | some p =>
    let name0 := p.1
    let name1 := p.2
    let tooShort := eitherNameTooShort name0 name1
    match eitherNameTooGeneric rd name0 name1 with
    | none => (none, cache)
    | some tooGeneric =>
      let q := removeNicknames rd name0 name1
      let name0 := q.1
      let name1 := q.2
      let s1 := spellingComparison name0 name1
      let a1 := some (name0, name1, s1.2)
      if s1.1 then (some ⟨true, tooGeneric, tooShort, a1, none, none, none⟩, cache)
      else if isWorthContinuing name0 name1 = false then
        (some ⟨false, tooGeneric, tooShort, a1, none, none, none⟩, cache)
      else
        match modifyNamesTogether rd name0 name1 with
        | none => (none, cache)
        | some m =>
          let m0 := m.1
          let m1 := m.2
          let s2 := spellingComparison m0 m1
          let a2 := some (m0, m1, s2.2)
          if s2.1 then
            (some ⟨true, tooGeneric, tooShort, a1, a2, none, none⟩, cache)
          else
            let pr3 := pronunciationComparisonC rd cache m0 m1
            match pr3.1 with
            | none => (none, pr3.2)
            | some r3 =>
              let a3 := some (r3.2.2.1, r3.2.2.2, r3.2.1)
              if r3.1 then
                (some ⟨true, tooGeneric, tooShort, a1, a2, a3, none⟩, pr3.2)
              else
                let pr4 := pronunciationComparisonC rd pr3.2 name0 name1
                match pr4.1 with
                | none => (none, pr4.2)
                | some r4 =>
                  let a4 := some (r4.2.2.1, r4.2.2.2, r4.2.1)
                  if r4.1 then
                    (some ⟨true, tooGeneric, tooShort, a1, a2, a3, a4⟩, pr4.2)
                  else
                    (some ⟨false, tooGeneric, tooShort, a1, a2, a3, a4⟩, pr4.2)

/-- `compareTwoNames` on a freshly constructed comparator (empty
memoization cache). -/
def compareTwoNames (rd : RefData) (name0 name1 : Str) : Option CompareResult :=
  (compareTwoNamesC rd [] name0 name1).1

/-- A reference-table load with `smith` among the top (most common)
surnames, as assumed by the spec's worked scenarios; every other table
is empty. -/
def rdSmith : RefData := ⟨[], [], [str "smith"], [], [], []⟩

/-! ## Cache validity (for the memoization claims) -/

/-- Every entry of the memoization cache stores the pure IPA value of
its key, as `@lru_cache` guarantees for any cache state reachable from
an empty cache. -/
def validCache (rd : RefData) (cache : IpaCache) : Prop :=
  ∀ p ∈ cache, p.2 = getIpaOfOneWordPure rd p.1

/-! ## Theorems -/

theorem len_dropWhile_le (p : Char → Bool) (l : List Char) :
    (l.dropWhile p).length ≤ l.length :=
  (List.dropWhile_sublist p).length_le

theorem combinationsL_zero {α : Type} (l : List α) : combinationsL 0 l = [[]] := by
  cases l <;> rfl

theorem mem_combinationsL {α : Type} (l : List α) :
    ∀ (n : Nat) (c : List α), c ∈ combinationsL n l ↔ (c.Sublist l ∧ c.length = n) := by
  induction l with
  | nil =>
    intro n c
    cases n with
    | zero =>
      simp only [combinationsL, List.mem_singleton]
      constructor
      · rintro rfl; exact ⟨List.nil_sublist _, rfl⟩
      · rintro ⟨_, hl⟩; exact List.length_eq_zero.mp hl
    | succ n =>
      simp only [combinationsL, List.not_mem_nil, false_iff, not_and]
      intro hs
      have : c = [] := List.sublist_nil.mp hs
      subst this; simp
  | cons x xs ih =>
    intro n c
    cases n with
    | zero =>
      simp only [combinationsL, List.mem_singleton]
      constructor
      · rintro rfl; exact ⟨List.nil_sublist _, rfl⟩
      · rintro ⟨_, hl⟩; exact List.length_eq_zero.mp hl
    | succ n =>
      simp only [combinationsL, List.mem_append, List.mem_map]
      constructor
      · rintro (⟨c', hc', rfl⟩ | h)
        · have h' := (ih n c').mp hc'
          exact ⟨List.Sublist.cons₂ x h'.1, by simp [h'.2]⟩
        · have h' := (ih (n + 1) c).mp h
          exact ⟨List.Sublist.cons x h'.1, h'.2⟩
      · rintro ⟨hs, hl⟩
        cases hs with
        | cons _ h => exact Or.inr ((ih (n + 1) c).mpr ⟨h, hl⟩)
        | cons₂ _ h =>
          exact Or.inl ⟨_, (ih n _).mpr ⟨h, by simpa using hl⟩, rfl⟩

theorem cons_sublist_append_of_mem {α : Type} {a : α} {ps J : List α} :
    ∀ {b : List α}, a ∈ b → ps.Sublist J → (a :: ps).Sublist (b ++ J) := by
  intro b
  induction b with
  | nil => intro ha; exact absurd ha (List.not_mem_nil a)
  | cons x b' ih =>
    intro ha hps
    rcases List.mem_cons.mp ha with rfl | ha'
    · exact List.Sublist.cons₂ a ((hps.trans (List.sublist_append_right b' J)))
    · exact List.Sublist.cons x (ih ha' hps)

theorem pick_join {α : Type} :
    ∀ (picks : List α) (blocks : List (List α)),
      List.Forall₂ (fun a bl => a ∈ bl) picks (blocks.take picks.length) →
      picks.Sublist blocks.join := by
  intro picks
  induction picks with
  | nil => intro blocks _; exact List.nil_sublist _
  | cons a ps ih =>
    intro blocks h
    cases blocks with
    | nil => simp at h
    | cons b bs =>
      simp only [List.length_cons, List.take_succ_cons] at h
      cases h with
      | cons h1 h2 =>
        simpa using cons_sublist_append_of_mem h1 (ih bs h2)

theorem scoresFor_eq_join (ws0 ws1 : List Str) :
    scoresFor ws0 ws1 = (scoreRows ws0 ws1).join := rfl

theorem diagCombo_length (ws0 ws1 : List Str) (k : Nat) :
    (diagCombo ws0 ws1 k).length = k := by
  simp [diagCombo]

theorem diagCombo_sublist (ws0 ws1 : List Str) (k : Nat)
    (h0 : k ≤ ws0.length) (h1 : k ≤ ws1.length) :
    (diagCombo ws0 ws1 k).Sublist (scoresFor ws0 ws1) := by
  rw [scoresFor_eq_join]
  apply pick_join
  rw [List.forall₂_iff_get]
  constructor
  · simp [diagCombo, scoreRows]
    omega
  · intro t ht1 ht2
    have htk : t < k := by simpa [diagCombo] using ht1
    have ht0 : t < ws0.length := lt_of_lt_of_le htk h0
    have htw1 : t < ws1.length := lt_of_lt_of_le htk h1
    have hge : (diagCombo ws0 ws1 k).get ⟨t, ht1⟩ =
        (t, t, pairScore (ws0.getD t []) (ws1.getD t [])) := by
      simp [diagCombo]
    rw [hge]
    have hrows : t < (scoreRows ws0 ws1).length := by
      simpa [scoreRows] using ht0
    have htake : ((scoreRows ws0 ws1).take (diagCombo ws0 ws1 k).length).get ⟨t, ht2⟩ =
        (scoreRows ws0 ws1).get ⟨t, hrows⟩ :=
      (List.get_take _ hrows (by simpa [diagCombo] using htk)).symm
    rw [htake]
    have he0 : ws0.enum.get ⟨t, by simpa using ht0⟩ = (t, ws0.get ⟨t, ht0⟩) := by
      rw [List.get_enum]; rfl
    have hrow : (scoreRows ws0 ws1).get ⟨t, hrows⟩ =
        ws1.enum.map (fun q => (t, q.1, pairScore (ws0.get ⟨t, ht0⟩) q.2)) := by
      show (List.map _ ws0.enum).get ⟨t, _⟩ = _
      rw [List.get_map]
      rw [show (ws0.enum.get ⟨t, by simpa using ht0⟩) = (t, ws0.get ⟨t, ht0⟩) from he0]
    rw [hrow]
    refine List.mem_map.mpr ⟨(t, ws1.get ⟨t, htw1⟩), ?_, ?_⟩
    · refine List.mem_iff_get.mpr ⟨⟨t, by simpa using htw1⟩, ?_⟩
      rw [List.get_enum]; rfl
    · have g0 : ws0[t]? = some ws0[t] := List.getElem?_eq_getElem ht0
      have g1 : ws1[t]? = some ws1[t] := List.getElem?_eq_getElem htw1
      simp [g0, g1, List.getD]

theorem diagCombo_valid (ws0 ws1 : List Str) (k : Nat) :
    validCombo (diagCombo ws0 ws1 k) = true := by
  unfold validCombo
  apply decide_eq_true
  constructor
  · rw [diagCombo, List.map_map]
    have h1 : ((fun t : Nat × Nat × Int => t.1) ∘
        (fun t : Nat => (t, t, pairScore (ws0.getD t []) (ws1.getD t [])))) = id :=
      funext fun t => rfl
    rw [h1, List.map_id]
    exact List.nodup_range k
  · rw [diagCombo, List.map_map]
    have h1 : ((fun t : Nat × Nat × Int => t.2.1) ∘
        (fun t : Nat => (t, t, pairScore (ws0.getD t []) (ws1.getD t [])))) = id :=
      funext fun t => rfl
    rw [h1, List.map_id]
    exact List.nodup_range k

theorem validCombos_ne_nil (ws0 ws1 : List Str) :
    ((combinationsL (min ws0.length ws1.length) (scoresFor ws0 ws1)).filter validCombo) ≠ [] := by
  apply List.ne_nil_of_mem (a := diagCombo ws0 ws1 (min ws0.length ws1.length))
  apply List.mem_filter.mpr
  refine ⟨(mem_combinationsL _ _ _).mpr ⟨?_, ?_⟩, ?_⟩
  · exact diagCombo_sublist ws0 ws1 _ (Nat.min_le_left _ _) (Nat.min_le_right _ _)
  · exact diagCombo_length ws0 ws1 _
  · exact diagCombo_valid ws0 ws1 _

theorem foldl_max_or {α : Type} (f : α → Int) :
    ∀ (vs : List α) (m : Int),
      vs.foldl (fun acc c => max acc (f c)) m = m ∨
      ∃ c ∈ vs, vs.foldl (fun acc c => max acc (f c)) m = f c := by
  intro vs
  induction vs with
  | nil => intro m; exact Or.inl rfl
  | cons x xs ih =>
    intro m
    rcases ih (max m (f x)) with h | ⟨c, hc, h⟩
    · rcases max_choice m (f x) with hm | hm
      · exact Or.inl (by simpa [hm] using h)
      · exact Or.inr ⟨x, List.mem_cons_self x xs, by simpa [hm] using h⟩
    · exact Or.inr ⟨c, List.mem_cons_of_mem x hc, h⟩

theorem foldl_best_or {α : Type} (lc : α → Nat) :
    ∀ (l : List α) (acc : List (Nat × Nat × Int) × Nat)
      (g : α → List (Nat × Nat × Int)),
      (l.foldl (fun acc c => if lc c > acc.2 then (g c, lc c) else acc) acc).1 = acc.1 ∨
      ∃ c ∈ l, (l.foldl (fun acc c => if lc c > acc.2 then (g c, lc c) else acc) acc).1 = g c := by
  intro l
  induction l with
  | nil => intro acc g; exact Or.inl rfl
  | cons x xs ih =>
    intro acc g
    by_cases h : lc x > acc.2
    · rcases ih (g x, lc x) g with h' | ⟨c, hc, h'⟩
      · exact Or.inr ⟨x, List.mem_cons_self x xs, by simpa [h] using h'⟩
      · exact Or.inr ⟨c, List.mem_cons_of_mem x hc, by simpa [h] using h'⟩
    · rcases ih acc g with h' | ⟨c, hc, h'⟩
      · exact Or.inl (by simpa [h] using h')
      · exact Or.inr ⟨c, List.mem_cons_of_mem x hc, by simpa [h] using h'⟩

theorem foldl_pick_or {α : Type} (lc : α → Nat) :
    ∀ (l : List α) (acc : α × Nat),
      (l.foldl (fun acc c => if lc c > acc.2 then (c, lc c) else acc) acc).1 = acc.1 ∨
      (l.foldl (fun acc c => if lc c > acc.2 then (c, lc c) else acc) acc).1 ∈ l := by
  intro l
  induction l with
  | nil => intro acc; exact Or.inl rfl
  | cons x xs ih =>
    intro acc
    by_cases h : lc x > acc.2
    · rcases ih (x, lc x) with h' | h'
      · exact Or.inr (by simp [h] at h' ⊢; simp [h'])
      · exact Or.inr (by simp [h] at h' ⊢; simp [h'])
    · rcases ih acc with h' | h'
      · exact Or.inl (by simpa [h] using h')
      · exact Or.inr (by simp [h] at h' ⊢; simp [h'])

theorem foldl_pick_mem {α : Type} (lc : α → Nat) :
    ∀ (l : List α) (acc : α × Nat), (∃ c ∈ l, lc c > acc.2) →
      (l.foldl (fun acc c => if lc c > acc.2 then (c, lc c) else acc) acc).1 ∈ l := by
  intro l
  induction l with
  | nil => rintro acc ⟨c, hc, -⟩; exact absurd hc (List.not_mem_nil c)
  | cons x xs ih =>
    rintro acc ⟨c, hc, hlc⟩
    by_cases h : lc x > acc.2
    · rcases foldl_pick_or lc xs (x, lc x) with h' | h'
      · simp only [List.foldl_cons, if_pos h]
        rw [h']
        exact List.mem_cons_self x xs
      · simp only [List.foldl_cons, if_pos h]
        exact List.mem_cons_of_mem x h'
    · rcases List.mem_cons.mp hc with rfl | hc'
      · exact absurd hlc h
      · simp only [List.foldl_cons, if_neg h]
        exact List.mem_cons_of_mem x (ih acc ⟨c, hc', hlc⟩)

theorem mem_scoresFor {ws0 ws1 : List Str} {t : Nat × Nat × Int}
    (h : t ∈ scoresFor ws0 ws1) : t.1 < ws0.length ∧ t.2.1 < ws1.length := by
  rcases List.mem_bind.mp h with ⟨p, hp, hmem⟩
  rcases List.mem_map.mp hmem with ⟨q, hq, heq⟩
  have hp' : (p.1, p.2) ∈ ws0.enum := by simpa using hp
  have hq' : (q.1, q.2) ∈ ws1.enum := by simpa using hq
  obtain ⟨hi, -⟩ := List.mem_enum hp'
  obtain ⟨hj, -⟩ := List.mem_enum hq'
  rw [← heq]
  exact ⟨hi, hj⟩

theorem splitWordsF_mem_ne_nil :
    ∀ (fuel : Nat) (s : Str), ∀ w ∈ splitWordsF fuel s, w ≠ [] := by
  intro fuel
  induction fuel with
  | zero => intro s w hw; cases s <;> simp [splitWordsF] at hw
  | succ fuel ih =>
    intro s w hw
    cases s with
    | nil => simp [splitWordsF] at hw
    | cons c cs =>
      rw [splitWordsF] at hw
      by_cases h : isPyWs c
      · rw [if_pos h] at hw
        exact ih cs w hw
      · rw [if_neg h] at hw
        rcases List.mem_cons.mp hw with rfl | hw'
        · simp
        · exact ih _ w hw'

theorem splitWords_mem_ne_nil : ∀ (s : Str), ∀ w ∈ splitWords s, w ≠ [] :=
  fun s => splitWordsF_mem_ne_nil s.length s

theorem foldl_add2_init_le {α : Type} (g h : α → Nat) :
    ∀ (l : List α) (a : Nat), a ≤ l.foldl (fun acc t => acc + g t + h t) a := by
  intro l
  induction l with
  | nil => intro a; exact le_refl a
  | cons x xs ih =>
    intro a
    calc a ≤ a + g x + h x := by omega
    _ ≤ xs.foldl (fun acc t => acc + g t + h t) (a + g x + h x) := ih _

theorem letterCount_pos (ws0 ws1 : List Str) (hw0 : ∀ w ∈ ws0, w ≠ [])
    {c : List (Nat × Nat × Int)} (hc : c.Sublist (scoresFor ws0 ws1)) (hne : c ≠ []) :
    0 < letterCount ws0 ws1 c := by
  obtain ⟨t, ts, rfl⟩ := List.exists_cons_of_ne_nil hne
  have ht : t ∈ scoresFor ws0 ws1 := hc.subset (List.mem_cons_self t ts)
  obtain ⟨hi, hj⟩ := mem_scoresFor ht
  have h0 : ws0.getD t.1 [] ≠ [] := by
    rw [List.getD_eq_get ws0 [] hi]
    exact hw0 _ (List.get_mem ws0 t.1 hi)
  have hlen : 0 < (ws0.getD t.1 []).length := List.length_pos.mpr h0
  have hfold := foldl_add2_init_le (fun t : Nat × Nat × Int => (ws0.getD t.1 []).length)
    (fun t : Nat × Nat × Int => (ws1.getD t.2.1 []).length) ts
    (0 + (ws0.getD t.1 []).length + (ws1.getD t.2.1 []).length)
  unfold letterCount
  rw [List.foldl_cons]
  omega

theorem alignPick_mem (ws0 ws1 : List Str)
    (v : List (Nat × Nat × Int)) (vs : List (List (Nat × Nat × Int)))
    (hpos : ∀ c ∈ v :: vs, 0 < letterCount ws0 ws1 c) :
    alignPick ws0 ws1 (v :: vs) ∈ v :: vs := by
  unfold alignPick
  have hattain := foldl_max_or sumScore vs (sumScore v)
  set maxSum := vs.foldl (fun m c => max m (sumScore c)) (sumScore v) with hms
  have hex : ∃ c ∈ v :: vs, sumScore c = maxSum := by
    rcases hattain with h | ⟨c, hc, h⟩
    · exact ⟨v, List.mem_cons_self v vs, h.symm⟩
    · exact ⟨c, List.mem_cons_of_mem v hc, h.symm⟩
  obtain ⟨c0, hc0, hc0s⟩ := hex
  have hc0f : c0 ∈ (v :: vs).filter (fun c => sumScore c = maxSum) :=
    List.mem_filter.mpr ⟨hc0, by simp [hc0s]⟩
  have hcpos : letterCount ws0 ws1 c0 > (([], 0) : List (Nat × Nat × Int) × Nat).2 :=
    hpos c0 hc0
  have hmem := foldl_pick_mem (letterCount ws0 ws1)
    ((v :: vs).filter (fun c => sumScore c = maxSum)) ([], 0) ⟨c0, hc0f, hcpos⟩
  exact (List.mem_filter.mp hmem).1

theorem valids_member_facts (name0 name1 : Str)
    {c : List (Nat × Nat × Int)}
    (hc : c ∈ (combinationsL (min (splitWords name0).length (splitWords name1).length)
      (scoresFor (splitWords name0) (splitWords name1))).filter validCombo) :
    c.Sublist (scoresFor (splitWords name0) (splitWords name1)) ∧
    c.length = min (splitWords name0).length (splitWords name1).length ∧
    (c.map (fun t => t.1)).Nodup ∧ (c.map (fun t => t.2.1)).Nodup := by
  obtain ⟨hmem, hvalid⟩ := List.mem_filter.mp hc
  obtain ⟨hsub, hlen⟩ := (mem_combinationsL _ _ _).mp hmem
  have hv := of_decide_eq_true hvalid
  exact ⟨hsub, hlen, hv.1, hv.2⟩

/-- The alignment is a member of the valid-combination list whenever both
names have at least one token. -/
theorem findWhich_mem_valids (name0 name1 : Str)
    (h0 : splitWords name0 ≠ []) (h1 : splitWords name1 ≠ []) :
    findWhichWordsMatchAndHowWell name0 name1 ∈
      (combinationsL (min (splitWords name0).length (splitWords name1).length)
        (scoresFor (splitWords name0) (splitWords name1))).filter validCombo := by
  have hk : 0 < min (splitWords name0).length (splitWords name1).length := by
    have l0 := List.length_pos.mpr h0
    have l1 := List.length_pos.mpr h1
    omega
  have hne := validCombos_ne_nil (splitWords name0) (splitWords name1)
  obtain ⟨v, vs, hvv⟩ := List.exists_cons_of_ne_nil hne
  have hpos : ∀ c ∈ v :: vs, 0 < letterCount (splitWords name0) (splitWords name1) c := by
    intro c hcmem
    have hc : c ∈ (combinationsL (min (splitWords name0).length (splitWords name1).length)
        (scoresFor (splitWords name0) (splitWords name1))).filter validCombo := by
      rw [hvv]; exact hcmem
    obtain ⟨hsub, hlen, -, -⟩ := valids_member_facts name0 name1 hc
    have hcnn : c ≠ [] := by
      intro hnil
      rw [hnil] at hlen
      simp at hlen
      omega
    exact letterCount_pos _ _ (fun w hw => splitWords_mem_ne_nil name0 w hw) hsub hcnn
  have hdef : findWhichWordsMatchAndHowWell name0 name1 =
      alignPick (splitWords name0) (splitWords name1)
        ((combinationsL (min (splitWords name0).length (splitWords name1).length)
          (scoresFor (splitWords name0) (splitWords name1))).filter validCombo) := rfl
  rw [hdef, hvv]
  exact alignPick_mem _ _ v vs hpos

/-- The alignment length always equals `min(|L|,|R|)` and its index
projections are duplicate-free (unconditionally: for an empty side the
alignment is empty). -/
theorem findWhich_facts (name0 name1 : Str) :
    (findWhichWordsMatchAndHowWell name0 name1).length =
      min (splitWords name0).length (splitWords name1).length ∧
    ((findWhichWordsMatchAndHowWell name0 name1).map (fun t => t.1)).Nodup ∧
    ((findWhichWordsMatchAndHowWell name0 name1).map (fun t => t.2.1)).Nodup := by
  by_cases h0 : splitWords name0 = []
  · have hk : min (splitWords name0).length (splitWords name1).length = 0 := by
      simp [h0]
    have hres : findWhichWordsMatchAndHowWell name0 name1 = [] := by
      show alignPick (splitWords name0) (splitWords name1)
        ((combinationsL (min (splitWords name0).length (splitWords name1).length)
          (scoresFor (splitWords name0) (splitWords name1))).filter validCombo) = []
      rw [hk, combinationsL_zero]
      rfl
    rw [hres, hk]
    exact ⟨rfl, List.nodup_nil, List.nodup_nil⟩
  by_cases h1 : splitWords name1 = []
  · have hk : min (splitWords name0).length (splitWords name1).length = 0 := by
      simp [h1]
    have hres : findWhichWordsMatchAndHowWell name0 name1 = [] := by
      show alignPick (splitWords name0) (splitWords name1)
        ((combinationsL (min (splitWords name0).length (splitWords name1).length)
          (scoresFor (splitWords name0) (splitWords name1))).filter validCombo) = []
      rw [hk, combinationsL_zero]
      rfl
    rw [hres, hk]
    exact ⟨rfl, List.nodup_nil, List.nodup_nil⟩
  · have h := valids_member_facts name0 name1 (findWhich_mem_valids name0 name1 h0 h1)
    exact ⟨h.2.1, h.2.2.1, h.2.2.2⟩

/-- C4: for every pair of nonempty cleaned names, the alignment returned
by `_findWhichWordsMatchAndHowWell` has exactly `min(|L|,|R|)` pairs,
its left indices are all distinct, and its right indices are all
distinct. -/
theorem claim4_alignment_invariants (L R : Str)
    (h0 : splitWords L ≠ []) (h1 : splitWords R ≠ []) :
    (findWhichWordsMatchAndHowWell L R).length =
      min (splitWords L).length (splitWords R).length ∧
    ((findWhichWordsMatchAndHowWell L R).map (fun t => t.1)).Nodup ∧
    ((findWhichWordsMatchAndHowWell L R).map (fun t => t.2.1)).Nodup :=
  findWhich_facts L R

theorem claim4_alignment_invariants_witness :
    (splitWords (str "ab c") ≠ [] ∧ splitWords (str "de") ≠ []) ∧
    ((findWhichWordsMatchAndHowWell (str "ab c") (str "de")).length =
      min (splitWords (str "ab c")).length (splitWords (str "de")).length ∧
    ((findWhichWordsMatchAndHowWell (str "ab c") (str "de")).map (fun t => t.1)).Nodup ∧
    ((findWhichWordsMatchAndHowWell (str "ab c") (str "de")).map (fun t => t.2.1)).Nodup) :=
  ⟨⟨by decide, by decide⟩,
   claim4_alignment_invariants (str "ab c") (str "de") (by decide) (by decide)⟩

/-- C5: the aligner's per-pair score: for tokens with either length 1
it is 100 exactly when the first characters agree and 0 otherwise; for
longer tokens it is `max(ratio, partialRatio)` when the first characters
agree and exactly `ratio` when they differ. -/
theorem claim5_pair_score (w0 w1 : Str) (h0 : w0 ≠ []) (h1 : w1 ≠ []) :
    ((w0.length = 1 ∨ w1.length = 1) →
      pairScore w0 w1 = if w0.headD ' ' = w1.headD ' ' then 100 else 0) ∧
    (1 < w0.length → 1 < w1.length →
      pairScore w0 w1 =
        if w0.headD ' ' = w1.headD ' '
        then max (fuzzRatio w0 w1) (fuzzPRatio w0 w1)
        else fuzzRatio w0 w1) := by
  constructor
  · intro h
    unfold pairScore
    rw [if_pos h]
  · intro ha hb
    have hno : ¬ (w0.length = 1 ∨ w1.length = 1) := by omega
    unfold pairScore
    rw [if_neg hno]
    by_cases hh : w0.headD ' ' = w1.headD ' '
    · simp [hh]
    · simp [hh]

theorem claim5_pair_score_witness :
    ((str "ab" : Str) ≠ [] ∧ (str "ax" : Str) ≠ []) ∧
    (((str "ab" : Str).length = 1 ∨ (str "ax" : Str).length = 1) →
      pairScore (str "ab") (str "ax") =
        if (str "ab").headD ' ' = (str "ax").headD ' ' then 100 else 0) ∧
    (1 < (str "ab" : Str).length → 1 < (str "ax" : Str).length →
      pairScore (str "ab") (str "ax") =
        if (str "ab").headD ' ' = (str "ax").headD ' '
        then max (fuzzRatio (str "ab") (str "ax")) (fuzzPRatio (str "ab") (str "ax"))
        else fuzzRatio (str "ab") (str "ax")) :=
  ⟨⟨by decide, by decide⟩,
   (claim5_pair_score (str "ab") (str "ax") (by decide) (by decide)).1,
   (claim5_pair_score (str "ab") (str "ax") (by decide) (by decide)).2⟩

/-- C6: the spelling matcher declares a match exactly when the number
`c` of alignment pairs scoring strictly above 80 satisfies `c ≥ 3` or
`c = min(|L|,|R|)`, and otherwise exactly when the consonant-skeleton
count exceeds `min(|L|,|R|)` or is at least 3; otherwise no match. -/
theorem claim6_spelling_decision (name0 name1 : Str) :
    (spellingComparison name0 name1).1 = true ↔
      (((findWhichWordsMatchAndHowWell name0 name1).filter
          (fun tup => tup.2.2 > 80)).length ≥ 3 ∨
       ((findWhichWordsMatchAndHowWell name0 name1).filter
          (fun tup => tup.2.2 > 80)).length =
        min (splitWords name0).length (splitWords name1).length) ∨
      (consonantMatchCount name0 name1 >
        min (splitWords name0).length (splitWords name1).length ∨
       consonantMatchCount name0 name1 ≥ 3) := by
  have hlen := (findWhich_facts name0 name1).1
  simp only [spellingComparison, consonantComparison, consonantMatchCount]
  simp only [hlen]
  by_cases h1 : ((findWhichWordsMatchAndHowWell name0 name1).filter
      (fun tup => tup.2.2 > 80)).length ≥ 3 ∨
      ((findWhichWordsMatchAndHowWell name0 name1).filter
        (fun tup => tup.2.2 > 80)).length =
      min (splitWords name0).length (splitWords name1).length
  · rw [if_pos h1]
    simp [h1]
  · rw [if_neg h1]
    by_cases h2 : ((findWhichWordsMatchAndHowWell name0 name1).filter
        (consonantPairOk name0 name1)).length >
        min (splitWords name0).length (splitWords name1).length ∨
        ((findWhichWordsMatchAndHowWell name0 name1).filter
          (consonantPairOk name0 name1)).length ≥ 3
    · rw [if_pos h2]
      constructor
      · intro _
        refine Or.inr ?_
        rcases h2 with h2 | h2
        · exact Or.inl (by omega)
        · exact Or.inr h2
      · intro _
        rfl
    · rw [if_neg h2]
      constructor
      · intro hh
        exact absurd hh (by simp)
      · intro hh
        exfalso
        rcases hh with hh | hh
        · exact h1 hh
        · rcases hh with hh | hh
          · exact h2 (Or.inl (by omega))
          · exact h2 (Or.inr hh)

/-- C7 (code bug): at the failing input the worth-continuing gate of
the source returns False (its token-length test reads single characters
of the whole name string, so every zero-score pair is counted), while
the gate as the spec words it (count only zero-score pairs involving an
initial token) returns True. -/
theorem claim7_gate_divergence :
    isWorthContinuing (str "abc def") (str "abc xyz") = false ∧
    claimWorthGate (str "abc def") (str "abc xyz") = true := by
  constructor
  · decide
  · decide

theorem sandwichAt_spec {b1 mA mB b2 w m : Str}
    (h : sandwichAt b1 mA mB b2 w = some m) :
    (m = mA ∨ m = mB) ∧ (b1 ++ m ++ b2).isPrefixOf w := by
  unfold sandwichAt at h
  split_ifs at h with h1 h2
  · injection h with h
    subst h
    exact ⟨Or.inl rfl, h1⟩
  · injection h with h
    subst h
    exact ⟨Or.inr rfl, h2⟩

theorem searchSandwichGo_spec (b1 mA mB b2 : Str) :
    ∀ (s : Str) (i : Nat) (r : Nat × Str),
      searchSandwichGo b1 mA mB b2 i s = some r →
      (r.2 = mA ∨ r.2 = mB) ∧ i ≤ r.1 ∧
      ∃ pre post, s = pre ++ (b1 ++ r.2 ++ b2) ++ post ∧ pre.length = r.1 - i := by
  intro s
  induction s with
  | nil =>
    intro i r h
    rw [searchSandwichGo, Option.map_eq_some'] at h
    obtain ⟨m, hm, rfl⟩ := h
    obtain ⟨hma, hpre⟩ := sandwichAt_spec hm
    rw [List.isPrefixOf_iff_prefix] at hpre
    obtain ⟨post, hpost⟩ := hpre
    exact ⟨hma, le_refl _, [], post, by simp [← hpost], by simp⟩
  | cons c cs ih =>
    intro i r h
    rw [searchSandwichGo] at h
    cases hat : sandwichAt b1 mA mB b2 (c :: cs) with
    | some m =>
      rw [hat] at h
      injection h with h
      subst h
      obtain ⟨hma, hpre⟩ := sandwichAt_spec hat
      rw [List.isPrefixOf_iff_prefix] at hpre
      obtain ⟨post, hpost⟩ := hpre
      exact ⟨hma, le_refl _, [], post, by simp [← hpost], by simp⟩
    | none =>
      rw [hat] at h
      obtain ⟨hma, hle, pre, post, heq, hlen⟩ := ih (i + 1) r h
      refine ⟨hma, by omega, c :: pre, post, by simp [heq], ?_⟩
      simp only [List.length_cons]
      omega

theorem searchSandwich_spec {b1 mA mB b2 w : Str} {r : Nat × Str}
    (h : searchSandwich b1 mA mB b2 w = some r) :
    (r.2 = mA ∨ r.2 = mB) ∧
    ∃ pre post, w = pre ++ (b1 ++ r.2 ++ b2) ++ post ∧ pre.length = r.1 := by
  obtain ⟨hma, -, pre, post, heq, hlen⟩ := searchSandwichGo_spec b1 mA mB b2 w 0 r h
  exact ⟨hma, pre, post, heq, by simpa using hlen⟩

theorem overwrite_decomp (pre b1 m b2 post mB : Str) :
    overwriteWithSubstring (pre ++ (b1 ++ m ++ b2) ++ post) mB
      (pre.length + b1.length) (pre.length + (b1 ++ m ++ b2).length - b2.length) =
    (pre ++ (b1 ++ m ++ b2) ++ post).take pre.length ++ (b1 ++ mB ++ b2) ++
      (pre ++ (b1 ++ m ++ b2) ++ post).drop (pre.length + (b1 ++ m ++ b2).length) := by
  have e1 : (pre ++ (b1 ++ m ++ b2) ++ post).take (pre.length + b1.length) =
      pre ++ b1 := by
    rw [show pre ++ (b1 ++ m ++ b2) ++ post = (pre ++ b1) ++ (m ++ b2 ++ post) by
      simp [List.append_assoc]]
    exact List.take_left' (by simp)
  have harith : pre.length + (b1 ++ m ++ b2).length - b2.length =
      (pre ++ b1 ++ m).length := by
    simp [List.length_append]
    omega
  have e2 : (pre ++ (b1 ++ m ++ b2) ++ post).drop
      (pre.length + (b1 ++ m ++ b2).length - b2.length) = b2 ++ post := by
    rw [harith, show pre ++ (b1 ++ m ++ b2) ++ post =
      (pre ++ b1 ++ m) ++ (b2 ++ post) by simp [List.append_assoc]]
    exact List.drop_left' rfl
  have e3 : (pre ++ (b1 ++ m ++ b2) ++ post).take pre.length = pre := by
    rw [show pre ++ (b1 ++ m ++ b2) ++ post = pre ++ ((b1 ++ m ++ b2) ++ post) by
      simp [List.append_assoc]]
    exact @List.take_left' _ pre ((b1 ++ m ++ b2) ++ post) _ rfl
  have e4 : (pre ++ (b1 ++ m ++ b2) ++ post).drop
      (pre.length + (b1 ++ m ++ b2).length) = post :=
    List.drop_left' (by simp)
  unfold overwriteWithSubstring
  rw [e1, e2, e3, e4]
  simp [List.append_assoc]

/-- C8: when the rule engine fires (the pattern `bread1(meatA|meatB)bread2`
matches in both aligned tokens, the matched groups differ, and the two
spans' start and end offsets each differ by at most 2), both tokens are
rewritten so that they carry `meatB` between the breads at the matched
site, regardless of which meat each originally had. -/
theorem claim8_rule_canonicalization
    (mA mB b1 b2 w0 w1 : Str) (r0 r1 : Nat × Str)
    (h0 : searchSandwich b1 mA mB b2 w0 = some r0)
    (h1 : searchSandwich b1 mA mB b2 w1 = some r1)
    (hg : b1 ++ r0.2 ++ b2 ≠ b1 ++ r1.2 ++ b2)
    (hspan : natAbsDiff r0.1 r1.1 ≤ 2 ∧
      natAbsDiff (r0.1 + (b1 ++ r0.2 ++ b2).length)
        (r1.1 + (b1 ++ r1.2 ++ b2).length) ≤ 2) :
    sandwichStep mA mB b1 b2 w0 w1 =
      (w0.take r0.1 ++ (b1 ++ mB ++ b2) ++
        w0.drop (r0.1 + (b1 ++ r0.2 ++ b2).length),
       w1.take r1.1 ++ (b1 ++ mB ++ b2) ++
        w1.drop (r1.1 + (b1 ++ r1.2 ++ b2).length)) := by
  obtain ⟨-, pre0, post0, heq0, hlen0⟩ := searchSandwich_spec h0
  obtain ⟨-, pre1, post1, heq1, hlen1⟩ := searchSandwich_spec h1
  simp only [sandwichStep, h0, h1]
  rw [if_neg hg, if_neg (not_not_intro hspan)]
  have d0 := overwrite_decomp pre0 b1 r0.2 b2 post0 mB
  have d1 := overwrite_decomp pre1 b1 r1.2 b2 post1 mB
  rw [hlen0] at d0
  rw [hlen1] at d1
  rw [← heq0] at d0
  rw [← heq1] at d1
  rw [d0, d1]

theorem claim8_rule_canonicalization_witness :
    (searchSandwich (str "a") (str "b") (str "c") (str "d") (str "-abd-") =
        some (1, str "b") ∧
      searchSandwich (str "a") (str "b") (str "c") (str "d") (str "-acd-") =
        some (1, str "c") ∧
      (str "a" ++ str "b" ++ str "d" : Str) ≠ str "a" ++ str "c" ++ str "d") ∧
    sandwichStep (str "b") (str "c") (str "a") (str "d") (str "-abd-") (str "-acd-") =
      ((str "-abd-" : Str).take 1 ++ (str "a" ++ str "c" ++ str "d") ++
        (str "-abd-" : Str).drop (1 + (str "a" ++ str "b" ++ str "d" : Str).length),
       (str "-acd-" : Str).take 1 ++ (str "a" ++ str "c" ++ str "d") ++
        (str "-acd-" : Str).drop (1 + (str "a" ++ str "c" ++ str "d" : Str).length)) :=
  ⟨⟨by decide, by decide, by decide⟩,
   claim8_rule_canonicalization (str "b") (str "c") (str "a") (str "d")
     (str "-abd-") (str "-acd-") (1, str "b") (1, str "c")
     (by decide) (by decide) (by decide) (by decide)⟩

/-- C9 (code bug): the adjacent-swap repair overwrites the left token
with the right one at ("abcde", "abxce") even though the two adjacent
differences are not a transposition (`L[3]='d' ≠ 'x'=R[2]`): the source
tests `word0[posI] != word1[posJ]` twice instead of also testing
`word0[posJ] != word1[posI]`.  The claim's condition is false here, yet
the code rewrites the pair. -/
theorem claim9_swap_divergence :
    fixSwappedChars (str "abcde") (str "abxce") = (str "abxce", str "abxce") ∧
    claimSwapCondition (str "abcde") (str "abxce") = false := by
  constructor
  · decide
  · decide

/-- C3 counterexample: cleaning "." yields the empty string, but
cleaning the empty string yields the sentinel "_", so a second pass
differs from the first. -/
theorem claim3_idempotence_cx :
    cleanNameByItself (cleanNameByItself (str ".")) ≠ cleanNameByItself (str ".") := by
  decide

/-- A second witness (not tied to a claim) that idempotence also fails
on inputs with a nonempty cleaned form: one `" in law"` removal can
re-expose another. -/
theorem cleanNameByItself_inlaw_example :
    cleanNameByItself (str "x in in lawlaw") = str "x in law" ∧
    cleanNameByItself (str "x in law") = str "x" := by
  constructor
  · decide
  · decide

/-- C3 (amended): cleaning is idempotent on its fixed points: a name
the cleaner returns unchanged is unchanged by a second pass.  (Full
idempotence fails: see `claim3_idempotence_cx`; empty-cleaning inputs
re-clean to the sentinel `"_"`, and removals can re-expose removable
patterns.) -/
theorem claim3_idempotence_fixed (A : Str) (h : cleanNameByItself A = A) :
    cleanNameByItself (cleanNameByItself A) = cleanNameByItself A := by
  rw [h]
  exact h

theorem claim3_idempotence_fixed_witness :
    cleanNameByItself (str "john smith") = str "john smith" ∧
    cleanNameByItself (cleanNameByItself (str "john smith")) =
      cleanNameByItself (str "john smith") :=
  ⟨by decide, claim3_idempotence_fixed (str "john smith") (by decide)⟩

theorem getIpaOfOneWordC_spec (rd : RefData) (cache : IpaCache) (w : Str)
    (h : validCache rd cache) :
    (getIpaOfOneWordC rd cache w).1 = getIpaOfOneWordPure rd w ∧
    validCache rd (getIpaOfOneWordC rd cache w).2 := by
  unfold getIpaOfOneWordC
  cases hf : (cache.find? (fun p => p.1 = w)).map (fun p => p.2) with
  | none =>
    refine ⟨rfl, ?_⟩
    intro p hp
    rcases List.mem_cons.mp hp with hrfl | hp'
    · rw [hrfl]
    · exact h p hp'
  | some v =>
    rw [Option.map_eq_some'] at hf
    obtain ⟨q, hq, hqv⟩ := hf
    have hq2 : q.2 = v := hqv
    have hqmem : q ∈ cache := List.mem_of_find?_eq_some hq
    have hqw : q.1 = w := by simpa using List.find?_some hq
    refine ⟨?_, h⟩
    show v = getIpaOfOneWordPure rd w
    rw [← hq2, h q hqmem, hqw]

theorem pronFold_spec (rd : RefData) :
    ∀ (ws : List Str) (acc : List Str) (cache : IpaCache), validCache rd cache →
      (ws.foldl (pronFoldStep rd) (acc, cache)).1
          = acc ++ ws.map (getIpaOfOneWordPure rd) ∧
        validCache rd (ws.foldl (pronFoldStep rd) (acc, cache)).2 := by
  intro ws
  induction ws with
  | nil => intro acc cache h; exact ⟨by simp, h⟩
  | cons w ws ih =>
    intro acc cache h
    obtain ⟨e, hv⟩ := getIpaOfOneWordC_spec rd cache w h
    have step : pronFoldStep rd (acc, cache) w
        = (acc ++ [(getIpaOfOneWordC rd cache w).1], (getIpaOfOneWordC rd cache w).2) := rfl
    obtain ⟨ih1, ih2⟩ := ih (acc ++ [(getIpaOfOneWordC rd cache w).1])
      (getIpaOfOneWordC rd cache w).2 hv
    constructor
    · rw [List.foldl_cons, step, ih1, e]
      simp
    · rw [List.foldl_cons, step]
      exact ih2

theorem getPronunciationC_spec (rd : RefData) (cache : IpaCache) (name : Str)
    (h : validCache rd cache) :
    (getPronunciationC rd cache name).1
        = joinWords ((splitWords name).map (getIpaOfOneWordPure rd)) ∧
      validCache rd (getPronunciationC rd cache name).2 := by
  obtain ⟨e, hv⟩ := pronFold_spec rd (splitWords name) [] cache h
  refine ⟨?_, hv⟩
  show joinWords ((splitWords name).foldl (pronFoldStep rd) ([], cache)).1 = _
  rw [e, List.nil_append]

theorem pronComparisonC_fst_congr (rd : RefData) (c c' : IpaCache) (n0 n1 : Str)
    (h : validCache rd c) (h' : validCache rd c') :
    (pronunciationComparisonC rd c n0 n1).1 = (pronunciationComparisonC rd c' n0 n1).1 := by
  have h0 := getPronunciationC_spec rd c n0 h
  have h1 := getPronunciationC_spec rd (getPronunciationC rd c n0).2 n1 h0.2
  have g0 := getPronunciationC_spec rd c' n0 h'
  have g1 := getPronunciationC_spec rd (getPronunciationC rd c' n0).2 n1 g0.2
  simp only [pronunciationComparisonC]
  rw [h0.1, h1.1, g0.1, g1.1]

theorem pronComparisonC_snd_valid (rd : RefData) (c : IpaCache) (n0 n1 : Str)
    (h : validCache rd c) :
    validCache rd (pronunciationComparisonC rd c n0 n1).2 := by
  have h0 := getPronunciationC_spec rd c n0 h
  have h1 := getPronunciationC_spec rd (getPronunciationC rd c n0).2 n1 h0.2
  exact h1.2

theorem compareTwoNamesC_congr (rd : RefData) (c c' : IpaCache) (n0 n1 : Str)
    (h : validCache rd c) (h' : validCache rd c') :
    (compareTwoNamesC rd c n0 n1).1 = (compareTwoNamesC rd c' n0 n1).1 ∧
    validCache rd (compareTwoNamesC rd c n0 n1).2 := by
  simp only [compareTwoNamesC]
  split
  next => exact ⟨rfl, h⟩
  next x0 p heq0 =>
    split
    next => exact ⟨rfl, h⟩
    next x1 tg heq1 =>
      split
      next hs1 => exact ⟨rfl, h⟩
      next hs1 =>
        split
        next hw => exact ⟨rfl, h⟩
        next hw =>
          split
          next => exact ⟨rfl, h⟩
          next x2 m heq2 =>
            split
            next hs2 => exact ⟨rfl, h⟩
            next hs2 =>
              have e3 := pronComparisonC_fst_congr rd c c' m.1 m.2 h h'
              have v3 := pronComparisonC_snd_valid rd c m.1 m.2 h
              have v3' := pronComparisonC_snd_valid rd c' m.1 m.2 h'
              rw [e3]
              split
              next => exact ⟨rfl, v3⟩
              next x3 r3 heq3 =>
                split
                next hb3 => exact ⟨rfl, v3⟩
                next hb3 =>
                  have e4 := pronComparisonC_fst_congr rd
                    (pronunciationComparisonC rd c m.1 m.2).2
                    (pronunciationComparisonC rd c' m.1 m.2).2
                    (removeNicknames rd p.1 p.2).1 (removeNicknames rd p.1 p.2).2 v3 v3'
                  have v4 := pronComparisonC_snd_valid rd
                    (pronunciationComparisonC rd c m.1 m.2).2
                    (removeNicknames rd p.1 p.2).1 (removeNicknames rd p.1 p.2).2 v3
                  rw [e4]
                  split
                  next => exact ⟨rfl, v4⟩
                  next x4 r4 heq4 =>
                    split
                    next hb4 => exact ⟨rfl, v4⟩
                    next hb4 => exact ⟨rfl, v4⟩

/-- C1: refuted (code bug).  `compareTwoNames("mr", ...)` does not return
a populated record: cleaning reduces `"mr"` to the empty string (the
title is stripped after the blank-name checks have already passed), the
empty name reaches `_eitherNameTooGeneric`, and `_hasRareSurname` raises
IndexError on `"".split()[-1]` (lines 852-853) — modelled as `none` —
whatever reference tables are loaded. -/
theorem claim1_crash_on_empty_cleaned (rd : RefData) :
    compareTwoNames rd (str "mr") (str "john smith") = none := rfl

/-- C2: refuted (code bug).  The match verdict is not symmetric: with
`smith` among the top surnames, `compareTwoNames("mr", "john smith")`
raises (the short-circuit `and` on line 820 evaluates
`_hasRareSurname` on the empty cleaned first name), while the reversed
call `compareTwoNames("john smith", "mr")` short-circuits on
`_hasRareSurname("john smith") = False` before touching the empty name
and returns a record with `match = True` (the empty token list makes
attempt 1 succeed vacuously: 0 pairs above 80 equals `minLength` 0). -/
theorem claim2_symmetry_divergence :
    compareTwoNames rdSmith (str "mr") (str "john smith") = none ∧
    (compareTwoNames rdSmith (str "john smith") (str "mr")).map CompareResult.isMatch
      = some true := ⟨rfl, rfl⟩

/-- C10: confirmed.  `compareTwoNames` is deterministic on a fixed
comparator: for any reachable (valid) state of the `@lru_cache` memo on
`_getIpaOfOneWord`, the result record equals the fresh-cache result —
so the first and a repeated second call on the same comparator return
equal records, the cache never changing any returned value. -/
theorem claim10_determinism (rd : RefData) (cache : IpaCache) (name0 name1 : Str)
    (h : validCache rd cache) :
    (compareTwoNamesC rd cache name0 name1).1 = compareTwoNames rd name0 name1 ∧
    (compareTwoNamesC rd (compareTwoNamesC rd cache name0 name1).2 name0 name1).1
      = (compareTwoNamesC rd cache name0 name1).1 := by
  have hnil : validCache rd ([] : IpaCache) := fun p hp => absurd hp (List.not_mem_nil p)
  obtain ⟨e1, v1⟩ := compareTwoNamesC_congr rd cache [] name0 name1 h hnil
  obtain ⟨e2, v2⟩ := compareTwoNamesC_congr rd
    (compareTwoNamesC rd cache name0 name1).2 [] name0 name1 v1 hnil
  exact ⟨e1, e2.trans e1.symm⟩

theorem claim10_determinism_witness :
    validCache rdSmith [] ∧
    ((compareTwoNamesC rdSmith [] (str "john smith") (str "mr")).1
        = compareTwoNames rdSmith (str "john smith") (str "mr") ∧
      (compareTwoNamesC rdSmith
          (compareTwoNamesC rdSmith [] (str "john smith") (str "mr")).2
          (str "john smith") (str "mr")).1
        = (compareTwoNamesC rdSmith [] (str "john smith") (str "mr")).1) :=
  ⟨fun p hp => absurd hp (List.not_mem_nil p),
   claim10_determinism rdSmith [] (str "john smith") (str "mr")
     (fun p hp => absurd hp (List.not_mem_nil p))⟩

end NameCmp
